import Mathlib

/-!
Verification of the gesture-recognition engine of the Mouse Gestures
browser extension against its natural-language specification.

The repository ships several variants of the content script and service
worker.  We embed each variant in its own namespace:

* `Content` — `src/scripts/content.js` (the current content script);
* `P1`      — `src/unnamed/part_001` (older content script, nearest-of-eight
              sector classifier);
* `P2`      — `src/unnamed/part_002` (content script with 4-direction
              classifier and diagonal normalisation);
* `P3`      — `src/unnamed/part_003` (content script with batch
              `detectPattern`, plus inline service-worker message listener);
* `SW`      — `src/unnamed/part_004` (service worker).

Conventions of the embedding:

* Pointer coordinates are rationals (`ℚ`); JavaScript numbers on the
  relevant code paths are used exactly.
* `Math.hypot` produces a real square root.  Wherever the source compares
  `dist(a,b) >= m`, we use the exactly equivalent rational comparison
  `m ≤ 0 ∨ m² ≤ dist2 a b` (`distGe` below); the equivalence holds because
  both sides of the original comparison are non-negative when `m > 0`.
  Where the source *accumulates* distances (`acc += dist(...)` in
  `detectPattern`), no rational reformulation exists and the embedding
  uses `Real.sqrt` directly.
* `Math.atan2(dy, dx) * 180 / Math.PI` is transcendental; classifiers that
  branch on the angle take the angle in degrees as an explicit `ℚ`
  argument (`ang`), standing for the exact mathematical value of that
  expression.  Theorems about those classifiers quantify over `ang` in
  the range `[-180, 180]` that `atan2` produces.
* JavaScript objects used as string-keyed maps become association lists
  with `List.lookup`.
-/

/-- `Math.min` on rationals.  (Defined by an explicit comparison so that
it kernel-reduces on concrete inputs; equal to `min` by `qmin_eq`.) -/
def qmin (a b : ℚ) : ℚ :=
  if a ≤ b then a else b

/-- `Math.max` on rationals; equal to `max` by `qmax_eq`. -/
def qmax (a b : ℚ) : ℚ :=
  if b ≤ a then a else b

theorem qmin_eq (a b : ℚ) : qmin a b = min a b := by
  rw [qmin, min_def]

theorem qmax_eq (a b : ℚ) : qmax a b = max a b := by
  rw [qmax, max_def]
  rcases le_total a b with h | h
  · rcases eq_or_lt_of_le h with rfl | hlt
    · simp
    · rw [if_pos h, if_neg (not_le.mpr hlt)]
  · rw [if_pos h]
    rcases eq_or_lt_of_le h with rfl | hlt
    · simp
    · rw [if_neg (not_le.mpr hlt)]

/-- A pointer sample in viewport coordinates (the `t` timestamp field is
never read by the recognition logic and is omitted). -/
structure Pt where
  x : ℚ
  y : ℚ
  deriving DecidableEq, Repr

/-- Squared Euclidean distance between two samples.  The source computes
`Math.hypot (a.x - b.x) (a.y - b.y)`; all comparisons of that value are
embedded through `distGe`. -/
def dist2 (a b : Pt) : ℚ :=
  (a.x - b.x) ^ 2 + (a.y - b.y) ^ 2

/-- Exact embedding of the comparison `dist a b ≥ m`: it holds iff
`m ≤ 0` or `m² ≤ dist2 a b` (equivalent because `dist` is non-negative
and squaring is monotone on non-negatives). -/
def distGe (a b : Pt) (m : ℚ) : Prop :=
  m ≤ 0 ∨ m ^ 2 ≤ dist2 a b

instance (a b : Pt) (m : ℚ) : Decidable (distGe a b m) := by
  unfold distGe
  infer_instance

namespace Content

/-- Action resolution in `endGesture` of `src/scripts/content.js`
(lines 448–458): the pattern is the concatenation of the collected
tokens, the primary lookup is `state.gestureMap[pattern] || ""`, and
then, if the pattern is exactly `"R"` and the gesture started on a link
with a resolvable href, the action is replaced by `"new_tab"`.
`linkHref` is the result of `getLinkHref(state.startTarget)`; it is
`""` when the start target is absent or carries no resolvable URL. -/
def resolveEndAction (gestureMap : List (String × String))
    (tokens : List String) (linkHref : String) : String :=
  let pattern := String.join tokens
  let action := (List.lookup pattern gestureMap).getD ""
  if pattern = "R" ∧ linkHref ≠ "" then "new_tab" else action

end Content

/-- C1, counterexample.  The claim states that a user who remapped the
gesture's pattern to an action other than `forward` gets the remapped
action.  In the code the link override fires whenever the final pattern
is `"R"` and the start element resolves to a link, regardless of the
mapping: with `R` remapped to `"reload"` and a gesture starting on
`https://x.test/a`, the emitted action is `"new_tab"`, not the remapped
`"reload"`. -/
theorem c1_counterexample :
    Content.resolveEndAction [("R", "reload")] ["R"] "https://x.test/a"
      = "new_tab" ∧ "new_tab" ≠ "reload" := by
  constructor
  · rfl
  · decide

/-- C1, amended.  The override is evaluated after the primary lookup but
replaces its result unconditionally: whenever the completed pattern is
`"R"` (the pattern whose default action is `forward`) and the start
element is a hyperlink with a resolvable absolute URL, the emitted
action is `"new_tab"` for every gesture map, including maps that remap
`"R"`; for every other pattern the emitted action is exactly the plain
mapping-table lookup. -/
theorem c1_amended :
    (∀ (gestureMap : List (String × String)) (linkHref : String),
        linkHref ≠ "" →
        Content.resolveEndAction gestureMap ["R"] linkHref = "new_tab") ∧
    (∀ (gestureMap : List (String × String)) (tokens : List String)
        (linkHref : String),
        String.join tokens ≠ "R" →
        Content.resolveEndAction gestureMap tokens linkHref
          = (List.lookup (String.join tokens) gestureMap).getD "") := by
  constructor
  · intro gestureMap linkHref h
    have hp : String.join ["R"] = "R" := rfl
    simp [Content.resolveEndAction, hp, h]
  · intro gestureMap tokens linkHref h
    simp [Content.resolveEndAction, h]

/-- C1, witness for the amended theorem: with `R` remapped to `"reload"`,
a completed `"R"` gesture starting on the link `https://x.test/a` emits
`"new_tab"`, and a completed `"L"` gesture emits the plain lookup result
`"back"`. -/
theorem c1_amended_witness :
    Content.resolveEndAction [("R", "reload"), ("L", "back")] ["R"]
        "https://x.test/a" = "new_tab" ∧
    Content.resolveEndAction [("R", "reload"), ("L", "back")] ["L"]
        "https://x.test/a" = "back" := by
  constructor
  · exact c1_amended.1 [("R", "reload"), ("L", "back")] "https://x.test/a"
      (by decide)
  · have h := c1_amended.2 [("R", "reload"), ("L", "back")] ["L"]
      "https://x.test/a" (by decide)
    simpa using h

namespace SW

/-- The result of the platform call `new URL(url)` when it succeeds:
the embedding records only the two attributes the service worker reads,
`u.protocol` and `u.toString()`. -/
structure ParsedURL where
  protocol : String
  serialized : String
  deriving DecidableEq

/-- `safeUrl` from `src/unnamed/part_004` (lines 41–51).  The platform
URL parser is abstracted as `parse`; `parse url = none` models
`new URL(url)` throwing.  Empty input short-circuits to `""`, a parsed
URL is kept only when its protocol is `http:` or `https:`, and every
other case yields `""`. -/
def safeUrl (parse : String → Option ParsedURL) (url : String) : String :=
  if url = "" then ""
  else
    match parse url with
    | none => ""
    | some u =>
        if u.protocol = "http:" ∨ u.protocol = "https:" then u.serialized
        else ""

/-- `openNewTab` from `src/unnamed/part_004` (lines 109–117), returning
the URL actually passed to `chrome.tabs.create`: the sanitised href when
`safeUrl` accepted it, the browser's default new-tab page otherwise. -/
def openNewTab (parse : String → Option ParsedURL) (urlMaybe : String) :
    String :=
  let url := safeUrl parse urlMaybe
  if url ≠ "" then url else "chrome://newtab/"

/-- The inline `new_tab` handling of the `chrome.runtime.onMessage`
listener in the service worker embedded in `src/unnamed/part_003`
(lines 596–612): the same sanitisation (empty href, parse failure and
non-http(s) protocols all collapse to `""`) followed by the same
fallback to `chrome://newtab/`. -/
def listenerNewTabUrl (parse : String → Option ParsedURL) (href : String) :
    String :=
  let url :=
    if href = "" then ""
    else
      match parse href with
      | none => ""
      | some u =>
          if u.protocol = "http:" ∨ u.protocol = "https:" then u.serialized
          else ""
  if url ≠ "" then url else "chrome://newtab/"

end SW

/-- C10: for every href sent with a `new_tab` action request, the service
worker navigates to the href itself (its parsed serialisation) only when
it parses as an absolute URL with scheme `http:` or `https:`; for every
other input — any other scheme, an empty string, or an unparsable
string — it opens the browser's default new-tab page, so a non-http(s)
URL is never navigated to.  The same holds for the inline listener in
the `part_003` service worker. -/
theorem c10_new_tab_only_http :
    ∀ (parse : String → Option SW.ParsedURL) (href : String),
      ((∃ u, parse href = some u ∧
          (u.protocol = "http:" ∨ u.protocol = "https:") ∧
          SW.openNewTab parse href = u.serialized) ∨
        SW.openNewTab parse href = "chrome://newtab/") ∧
      (∀ u, parse href = some u → u.protocol ≠ "http:" →
        u.protocol ≠ "https:" →
        SW.openNewTab parse href = "chrome://newtab/") ∧
      (href = "" → SW.openNewTab parse href = "chrome://newtab/") ∧
      (parse href = none → SW.openNewTab parse href = "chrome://newtab/") ∧
      SW.listenerNewTabUrl parse href = SW.openNewTab parse href := by
  intro parse href
  refine ⟨?_, ?_, ?_, ?_, ?_⟩
  · by_cases h0 : href = ""
    · right
      simp [SW.openNewTab, SW.safeUrl, h0]
    · cases hp : parse href with
      | none => right; simp [SW.openNewTab, SW.safeUrl, h0, hp]
      | some u =>
          by_cases hproto : u.protocol = "http:" ∨ u.protocol = "https:"
          · by_cases hser : u.serialized = ""
            · right
              simp [SW.openNewTab, SW.safeUrl, h0, hp, hproto, hser]
            · left
              exact ⟨u, rfl, hproto,
                by simp [SW.openNewTab, SW.safeUrl, h0, hp, hproto, hser]⟩
          · right
            simp [SW.openNewTab, SW.safeUrl, h0, hp, hproto]
  · intro u hp h1 h2
    by_cases h0 : href = ""
    · simp [SW.openNewTab, SW.safeUrl, h0]
    · simp [SW.openNewTab, SW.safeUrl, h0, hp, h1, h2]
  · intro h0
    simp [SW.openNewTab, SW.safeUrl, h0]
  · intro hp
    by_cases h0 : href = ""
    · simp [SW.openNewTab, SW.safeUrl, h0]
    · simp [SW.openNewTab, SW.safeUrl, h0, hp]
  · by_cases h0 : href = ""
    · simp [SW.openNewTab, SW.safeUrl, SW.listenerNewTabUrl, h0]
    · cases hp : parse href with
      | none => simp [SW.openNewTab, SW.safeUrl, SW.listenerNewTabUrl, h0, hp]
      | some u => simp [SW.openNewTab, SW.safeUrl, SW.listenerNewTabUrl, h0, hp]

/-- C10, witness: with a parser that resolves `javascript:alert(1)` to a
URL with protocol `javascript:` and `https://x.test/a` to an http(s)
URL, the service worker opens the default new-tab page for the
`javascript:` href, the empty href and an unparsable href, and opens the
serialised URL for the https href. -/
theorem c10_new_tab_only_http_witness :
    (fun parse =>
      SW.openNewTab parse "javascript:alert(1)" = "chrome://newtab/" ∧
      SW.openNewTab parse "" = "chrome://newtab/" ∧
      SW.openNewTab parse "::notaurl" = "chrome://newtab/" ∧
      SW.openNewTab parse "https://x.test/a" = "https://x.test/a")
      (fun s =>
        if s = "javascript:alert(1)" then
          some ⟨"javascript:", "javascript:alert(1)"⟩
        else if s = "https://x.test/a" then
          some ⟨"https:", "https://x.test/a"⟩
        else none) := by
  refine ⟨?_, ?_, ?_, ?_⟩
  · exact (c10_new_tab_only_http _ "javascript:alert(1)").2.1
      ⟨"javascript:", "javascript:alert(1)"⟩ (by decide) (by decide) (by decide)
  · exact (c10_new_tab_only_http _ "").2.2.1 (by decide)
  · exact (c10_new_tab_only_http _ "::notaurl").2.2.2.1 (by decide)
  · have h := (c10_new_tab_only_http
      (fun s =>
        if s = "javascript:alert(1)" then
          some ⟨"javascript:", "javascript:alert(1)"⟩
        else if s = "https://x.test/a" then
          some ⟨"https:", "https://x.test/a"⟩
        else none) "https://x.test/a").1
    rcases h with ⟨u, hu, _, hopen⟩ | hfall
    · have hu' : u = ⟨"https:", "https://x.test/a"⟩ := by
        simpa using hu.symm
      rw [hopen, hu']
    · exfalso
      revert hfall
      decide

/-- `normalizeHost` from `src/scripts/content.js`: trim whitespace and
lowercase.  `String.prototype.trim` and `toLowerCase` are modelled at
the character-list level (Lean's byte-position-based `String.trim` and
`String.toLower` compute the same strings but do not kernel-reduce). -/
def normalizeHost (host : String) : String :=
  String.mk
    (((host.data.dropWhile Char.isWhitespace).reverse.dropWhile
        Char.isWhitespace).reverse.map Char.toLower)

/-- `hostMatchesRule` from `src/scripts/content.js` (lines 57–62): an
empty host or rule never matches; otherwise the host matches when it
equals the rule or ends with `"." ++ rule` (the `endsWith` test is a
character-list suffix test). -/
def hostMatchesRule (host rule : String) : Bool :=
  let h := normalizeHost host
  let r := normalizeHost rule
  if h = "" ∨ r = "" then false
  else h == r || ("." ++ r).data.isSuffixOf h.data

/-- `host.split(".")` at the character-list level: split into the
dot-separated segments, keeping empty segments like JavaScript does. -/
def splitDot : List Char → List (List Char)
  | [] => [[]]
  | c :: rest =>
      let r := splitDot rest
      if c = '.' then [] :: r
      else
        match r with
        | p :: ps => (c :: p) :: ps
        | [] => [[c]]

/-- `parts.slice(i).join(".")` at the character-list level. -/
def joinDot : List (List Char) → List Char
  | [] => []
  | [p] => p
  | p :: ps => p ++ '.' :: joinDot ps

namespace Content

/-- `getSitePolicy` from `src/scripts/content.js` (lines 160–172),
returning the policy's behaviour string.  The policy table (a JS object
keyed by host) is an association list.  Lookup order: exact host match;
else the loop `for (let i = 1; i < parts.length - 1; i++)` walks the
parent domains from most-specific to least-specific, excluding the final
(public top-level) segment; else behaviour `"normal"`. -/
def getSitePolicy (policies : List (String × String)) (host : String) :
    String :=
  let h := normalizeHost host
  if h = "" then "normal"
  else
    match List.lookup h policies with
    | some b => b
    | none =>
        let parts := splitDot h.data
        let hits := (List.range' 1 (parts.length - 2)).filterMap
          (fun i => List.lookup (String.mk (joinDot (parts.drop i))) policies)
        hits.headD "normal"

end Content

/-- C8: site-policy lookup tries the exact host first, then walks parent
domains from most-specific to least-specific excluding the public
top-level segment, and defaults to `"normal"`.  Consequently, for every
behaviour `v` (and competing behaviour `w`): an entry for `example.com`
governs both `example.com` and `sub.example.com` but never
`notexample.com`; an exact entry beats a parent entry; a more specific
parent beats a less specific one; an entry for the bare top-level
segment `com` is never reached; and with no matching entry the result is
`"normal"`.  The suffix rule of `hostMatchesRule` behaves the same way
on the spec's three hosts. -/
theorem c8_policy_lookup :
    ∀ v w : String,
      Content.getSitePolicy [("example.com", v)] "example.com" = v ∧
      Content.getSitePolicy [("example.com", v)] "sub.example.com" = v ∧
      Content.getSitePolicy [("example.com", v)] "notexample.com"
        = "normal" ∧
      Content.getSitePolicy [("sub.example.com", v), ("example.com", w)]
        "sub.example.com" = v ∧
      Content.getSitePolicy [("example.com", w), ("b.example.com", v)]
        "a.b.example.com" = v ∧
      Content.getSitePolicy [("com", v)] "example.com" = "normal" ∧
      Content.getSitePolicy [] "example.com" = "normal" ∧
      hostMatchesRule "example.com" "example.com" = true ∧
      hostMatchesRule "sub.example.com" "example.com" = true ∧
      hostMatchesRule "notexample.com" "example.com" = false := by
  intro v w
  refine ⟨rfl, rfl, rfl, rfl, rfl, rfl, rfl, rfl, rfl, rfl⟩

namespace Content

/-- Result of the JavaScript coercion `Number(x)` on a stored value:
`fin q` when the result is a finite number of exact value `q`,
`nonFinite` when it is `NaN` or `±Infinity` (e.g. `Number("abc")` or
`Number(undefined)`). -/
inductive JNum where
  | nonFinite : JNum
  | fin : ℚ → JNum
  deriving DecidableEq

/-- `clamp` from `src/scripts/content.js` (lines 43–47): coerce with
`Number`, return the lower bound `a` when the result is not finite,
otherwise `Math.min(b, Math.max(a, n))`. -/
def clamp (n : JNum) (a b : ℚ) : ℚ :=
  match n with
  | .nonFinite => a
  | .fin q => qmin b (qmax a q)

/-- The stored `cfgRaw.prefs` object, restricted to the numeric fields
`readAll` clamps: each field is absent (`none`) or present with the
`JNum` its `Number` coercion produces. -/
structure StoredPrefs where
  minSegmentPx : Option JNum
  jitterPx : Option JNum
  sampleMinPx : Option JNum
  movedPx : Option JNum
  lineWidth : Option JNum
  trailAlpha : Option JNum
  deriving DecidableEq

/-- The numeric preference fields after `readAll`. -/
structure Prefs where
  minSegmentPx : ℚ
  jitterPx : ℚ
  sampleMinPx : ℚ
  movedPx : ℚ
  lineWidth : ℚ
  trailAlpha : ℚ
  deriving DecidableEq

/-- The object-spread `{...DEFAULTS.prefs, ...cfgRaw.prefs}` on one
field: a present stored value wins, an absent one falls back to the
default. -/
def mergeField (stored : Option JNum) (dflt : ℚ) : JNum :=
  stored.getD (.fin dflt)

/-- The prefs part of `readAll` from `src/scripts/content.js`
(lines 64–98): spread the stored prefs over `DEFAULTS.prefs`
(`minSegmentPx 8, jitterPx 4, sampleMinPx 3, movedPx 3, lineWidth 3,
trailAlpha 0.85`), then clamp each numeric field into its documented
range. -/
def readPrefs (sp : StoredPrefs) : Prefs where
  minSegmentPx := clamp (mergeField sp.minSegmentPx 8) 6 60
  jitterPx := clamp (mergeField sp.jitterPx 4) 0 20
  sampleMinPx := clamp (mergeField sp.sampleMinPx 3) 0 10
  movedPx := clamp (mergeField sp.movedPx 3) 1 20
  lineWidth := clamp (mergeField sp.lineWidth 3) 1 18
  trailAlpha := clamp (mergeField sp.trailAlpha (17 / 20)) (1 / 20) 1

/-- The `enabled` field of `readAll`: `typeof cfgRaw.enabled ===
"boolean"` keeps a stored boolean, everything else (missing or
malformed, modelled as `none`) falls back to the default `true`. -/
def readEnabled (stored : Option Bool) : Bool :=
  stored.getD true

/-- The `mode` field of `readAll`: kept only when it is exactly
`"whitelist"` or `"blacklist"`, else the default `"blacklist"`. -/
def readMode (stored : Option String) : String :=
  match stored with
  | some m => if m = "whitelist" ∨ m = "blacklist" then m else "blacklist"
  | none => "blacklist"

end Content

/-- For `a ≤ b`, `clamp` always lands inside `[a, b]`. -/
theorem clamp_mem (n : Content.JNum) (a b : ℚ) (hab : a ≤ b) :
    a ≤ Content.clamp n a b ∧ Content.clamp n a b ≤ b := by
  cases n with
  | nonFinite => exact ⟨le_refl a, hab⟩
  | fin q =>
      show a ≤ qmin b (qmax a q) ∧ qmin b (qmax a q) ≤ b
      rw [qmin_eq, qmax_eq]
      constructor
      · exact le_min hab (le_max_left a q)
      · exact min_le_left b _

/-- C9, counterexample.  The claim states that a non-numeric value for a
numeric field yields that field's documented default.  In the code,
`clamp` returns the *lower bound* of the range when `Number(n)` is not
finite: a stored non-numeric `minSegmentPx` produces `6`, not the
documented default `8` (while a *missing* `jitterPx` in the same read
does produce its default `4`). -/
theorem c9_counterexample :
    (Content.readPrefs
        ⟨some .nonFinite, none, none, none, none, none⟩).minSegmentPx = 6 ∧
    (6 : ℚ) ≠ 8 ∧
    (Content.readPrefs
        ⟨some .nonFinite, none, none, none, none, none⟩).jitterPx = 4 := by
  refine ⟨rfl, by norm_num, ?_⟩
  show Content.clamp (Content.mergeField none 4) 0 20 = 4
  norm_num [Content.clamp, Content.mergeField, qmin, qmax]

/-- C9, amended.  Reading configuration never raises (the read is a
total function); every *missing* field independently falls back to its
documented default; every numeric field is clamped into its documented
safe range before use; but a *present non-numeric* value for a numeric
field yields the lower bound of that field's range rather than the
field's default (`minSegmentPx → 6`, `jitterPx → 0`, `sampleMinPx → 0`,
`movedPx → 1`, `lineWidth → 1`, `trailAlpha → 0.05`).  `enabled` and
`mode` fall back to `true` and `"blacklist"` on missing or malformed
input. -/
theorem c9_amended :
    (∀ sp : Content.StoredPrefs,
      (6 ≤ (Content.readPrefs sp).minSegmentPx ∧
        (Content.readPrefs sp).minSegmentPx ≤ 60) ∧
      (0 ≤ (Content.readPrefs sp).jitterPx ∧
        (Content.readPrefs sp).jitterPx ≤ 20) ∧
      (0 ≤ (Content.readPrefs sp).sampleMinPx ∧
        (Content.readPrefs sp).sampleMinPx ≤ 10) ∧
      (1 ≤ (Content.readPrefs sp).movedPx ∧
        (Content.readPrefs sp).movedPx ≤ 20) ∧
      (1 ≤ (Content.readPrefs sp).lineWidth ∧
        (Content.readPrefs sp).lineWidth ≤ 18) ∧
      (1 / 20 ≤ (Content.readPrefs sp).trailAlpha ∧
        (Content.readPrefs sp).trailAlpha ≤ 1)) ∧
    Content.readPrefs ⟨none, none, none, none, none, none⟩
      = Content.Prefs.mk 8 4 3 3 3 (17 / 20) ∧
    Content.readPrefs
        ⟨some .nonFinite, some .nonFinite, some .nonFinite,
          some .nonFinite, some .nonFinite, some .nonFinite⟩
      = ⟨6, 0, 0, 1, 1, 1 / 20⟩ ∧
    Content.readEnabled none = true ∧
    Content.readMode none = "blacklist" ∧
    (∀ m : String, Content.readMode (some m) = m ∨
      Content.readMode (some m) = "blacklist") := by
  refine ⟨?_, ?_, rfl, rfl, rfl, ?_⟩
  · intro sp
    exact ⟨clamp_mem _ 6 60 (by norm_num), clamp_mem _ 0 20 (by norm_num),
      clamp_mem _ 0 10 (by norm_num), clamp_mem _ 1 20 (by norm_num),
      clamp_mem _ 1 18 (by norm_num), clamp_mem _ (1 / 20) 1 (by norm_num)⟩
  · norm_num [Content.readPrefs, Content.clamp, Content.mergeField, qmin, qmax]
  · intro m
    by_cases h : m = "whitelist" ∨ m = "blacklist"
    · left
      simp [Content.readMode, h]
    · right
      simp [Content.readMode, h]

namespace P2

/-- The characters accepted by `normalizePattern`'s compaction filter
(`"LRUD".includes(c)`). -/
def dirChars : List Char := ['L', 'R', 'U', 'D']

/-- The compaction loop of `normalizePattern` from `src/unnamed/part_002`
(lines 126–145): keep a character when it is one of `LRUD` and differs
from the last kept character (`last`, `none` while nothing has been
kept — in the source, `compact[compact.length - 1]` is `undefined`
then). -/
def compactAux (last : Option Char) : List Char → List Char
  | [] => []
  | c :: rest =>
      if c ∈ dirChars ∧ some c ≠ last then c :: compactAux (some c) rest
      else compactAux last rest

/-- The final two-token collapse of `normalizePattern`: when the
compacted pattern has exactly two characters, the four
horizontal-then-vertical orderings `RU`, `RD`, `LU`, `LD` are rewritten
to the diagonal spellings `UR`, `DR`, `UL`, `DL`; everything else passes
through unchanged. -/
def swap2 : List Char → List Char
  | [a, b] =>
      if a = 'R' ∧ b = 'U' then ['U', 'R']
      else if a = 'R' ∧ b = 'D' then ['D', 'R']
      else if a = 'L' ∧ b = 'U' then ['U', 'L']
      else if a = 'L' ∧ b = 'D' then ['D', 'L']
      else [a, b]
  | other => other

/-- `normalizePattern` from `src/unnamed/part_002` (lines 126–145), with
`toUpperCase` modelled by mapping `Char.toUpper`. -/
def normalizePattern (p : String) : String :=
  String.mk (swap2 (compactAux none (p.data.map Char.toUpper)))

end P2

/-- Every character kept by the compaction loop is one of `LRUD`. -/
theorem compactAux_mem (l : List Char) :
    ∀ last, ∀ c ∈ P2.compactAux last l, c ∈ P2.dirChars := by
  induction l with
  | nil =>
      intro last c hc
      cases hc
  | cons a rest ih =>
      intro last c hc
      by_cases ha : a ∈ P2.dirChars ∧ some a ≠ last
      · rw [P2.compactAux, if_pos ha] at hc
        rcases List.mem_cons.mp hc with rfl | hc
        · exact ha.1
        · exact ih (some a) c hc
      · rw [P2.compactAux, if_neg ha] at hc
        exact ih last c hc

/-- The compacted list has no two adjacent equal characters, and its
first character differs from the `last` parameter. -/
theorem compactAux_chain (l : List Char) :
    ∀ last, List.Chain' (· ≠ ·) (P2.compactAux last l) ∧
      ∀ c, (P2.compactAux last l).head? = some c → some c ≠ last := by
  induction l with
  | nil =>
      intro last
      refine ⟨List.chain'_nil, ?_⟩
      intro c hc
      cases hc
  | cons a rest ih =>
      intro last
      by_cases ha : a ∈ P2.dirChars ∧ some a ≠ last
      · rw [P2.compactAux, if_pos ha]
        obtain ⟨ih1, ih2⟩ := ih (some a)
        constructor
        · rw [List.chain'_cons']
          refine ⟨?_, ih1⟩
          intro y hy
          have := ih2 y hy
          intro hay
          exact this (by rw [hay])
        · intro c hc
          have hca : a = c := by simpa using hc
          rw [← hca]
          exact ha.2
      · rw [P2.compactAux, if_neg ha]
        exact ih last

/-- A list that is already compact — all characters in `LRUD`, no two
adjacent characters equal, first character different from `last` — is a
fixed point of the compaction loop. -/
theorem compactAux_fix (l : List Char) :
    ∀ last, (∀ c ∈ l, c ∈ P2.dirChars) → List.Chain' (· ≠ ·) l →
      (∀ c, l.head? = some c → some c ≠ last) →
      P2.compactAux last l = l := by
  induction l with
  | nil =>
      intros
      rfl
  | cons a rest ih =>
      intro last hmem hchain hhead
      have ha : a ∈ P2.dirChars := hmem a (List.mem_cons_self a rest)
      have hne : some a ≠ last := hhead a rfl
      rw [P2.compactAux, if_pos ⟨ha, hne⟩]
      congr 1
      obtain ⟨hc1, hc2⟩ := List.chain'_cons'.mp hchain
      refine ih (some a) (fun d hd => hmem d (List.mem_cons_of_mem _ hd)) hc2 ?_
      intro d hd
      have : a ≠ d := hc1 d hd
      intro h
      exact this (by injection h with h; exact h.symm)

/-- `swap2` only produces characters from `LRUD` (given such input). -/
theorem swap2_mem (m : List Char) (h : ∀ c ∈ m, c ∈ P2.dirChars) :
    ∀ c ∈ P2.swap2 m, c ∈ P2.dirChars := by
  match m with
  | [] => exact h
  | [a] => exact h
  | [a, b] =>
      intro c hc
      rw [P2.swap2] at hc
      split_ifs at hc with h1 h2 h3 h4
      · rcases List.mem_cons.mp hc with rfl | hc
        · decide
        · rcases List.mem_cons.mp hc with rfl | hc
          · decide
          · cases hc
      · rcases List.mem_cons.mp hc with rfl | hc
        · decide
        · rcases List.mem_cons.mp hc with rfl | hc
          · decide
          · cases hc
      · rcases List.mem_cons.mp hc with rfl | hc
        · decide
        · rcases List.mem_cons.mp hc with rfl | hc
          · decide
          · cases hc
      · rcases List.mem_cons.mp hc with rfl | hc
        · decide
        · rcases List.mem_cons.mp hc with rfl | hc
          · decide
          · cases hc
      · exact h c hc
  | a :: b :: c :: t => exact h

/-- `swap2` preserves the no-adjacent-duplicates invariant. -/
theorem swap2_chain (m : List Char) (h : List.Chain' (· ≠ ·) m) :
    List.Chain' (· ≠ ·) (P2.swap2 m) := by
  match m with
  | [] => exact h
  | [a] => exact h
  | [a, b] =>
      rw [P2.swap2]
      split_ifs with h1 h2 h3 h4
      · exact List.chain'_pair.mpr (by decide)
      · exact List.chain'_pair.mpr (by decide)
      · exact List.chain'_pair.mpr (by decide)
      · exact List.chain'_pair.mpr (by decide)
      · exact h
  | a :: b :: c :: t => exact h

/-- `swap2` is idempotent: its image avoids the four rewritten
orderings. -/
theorem swap2_idem (m : List Char) : P2.swap2 (P2.swap2 m) = P2.swap2 m := by
  match m with
  | [] => rfl
  | [a] => rfl
  | [a, b] =>
      rw [P2.swap2]
      split_ifs with h1 h2 h3 h4
      · rfl
      · rfl
      · rfl
      · rfl
      · rw [P2.swap2, if_neg h1, if_neg h2, if_neg h3, if_neg h4]
  | a :: b :: c :: t => rfl

/-- `Char.toUpper` fixes the four direction characters. -/
theorem toUpper_dirChars : ∀ c ∈ P2.dirChars, Char.toUpper c = c := by
  decide

/-- C7: the pattern normalizer is idempotent —
`normalize (normalize p) = normalize p` for every pattern string `p` —
and the diagonal spellings produced by collapsing a
horizontal-then-vertical pair are fixed points (shown here for all four
pairs: `RU ↦ UR`, `RD ↦ DR`, `LU ↦ UL`, `LD ↦ DL`, each output being
fixed by a second normalisation). -/
theorem c7_normalize_idem :
    (∀ p : String,
      P2.normalizePattern (P2.normalizePattern p) = P2.normalizePattern p) ∧
    P2.normalizePattern "RU" = "UR" ∧ P2.normalizePattern "UR" = "UR" ∧
    P2.normalizePattern "RD" = "DR" ∧ P2.normalizePattern "DR" = "DR" ∧
    P2.normalizePattern "LU" = "UL" ∧ P2.normalizePattern "UL" = "UL" ∧
    P2.normalizePattern "LD" = "DL" ∧ P2.normalizePattern "DL" = "DL" := by
  refine ⟨?_, rfl, rfl, rfl, rfl, rfl, rfl, rfl, rfl⟩
  intro p
  unfold P2.normalizePattern
  congr 1
  have hmem := compactAux_mem (p.data.map Char.toUpper) none
  have hch := (compactAux_chain (p.data.map Char.toUpper) none).1
  set m := P2.compactAux none (p.data.map Char.toUpper) with hm
  have hmem2 := swap2_mem m hmem
  have hch2 := swap2_chain m hch
  have hupper : (P2.swap2 m).map Char.toUpper = P2.swap2 m := by
    have : (P2.swap2 m).map Char.toUpper = (P2.swap2 m).map id :=
      List.map_congr_left fun c hc => toUpper_dirChars c (hmem2 c hc)
    rw [this, List.map_id]
  have hstr : (String.mk (P2.swap2 m)).data = P2.swap2 m := rfl
  rw [hstr, hupper]
  have hfix : P2.compactAux none (P2.swap2 m) = P2.swap2 m := by
    refine compactAux_fix (P2.swap2 m) none hmem2 hch2 ?_
    intro c _
    exact Option.some_ne_none c
  rw [hfix, swap2_idem]

namespace Content

/-- `dir8` from `src/scripts/content.js` (lines 288–310).  The angle
`ang` stands for `Math.atan2(dy, dx) * 180 / Math.PI` (see the file
header); the branch structure is the source's: jitter precheck, then a
±85° horizontal band (checked first), a ±40° vertical band, and ±30°
diagonal bands. -/
def dir8 (dx dy jitter : ℚ) (ang : ℚ) : String :=
  if |dx| < jitter ∧ |dy| < jitter then ""
  else if |ang| ≤ 85 ∨ |ang - 180| ≤ 85 ∨ |ang + 180| ≤ 85 then
    if 0 ≤ dx then "R" else "L"
  else if |ang - 90| ≤ 40 ∨ |ang + 90| ≤ 40 then
    if 0 ≤ dy then "D" else "U"
  else if |ang - 45| ≤ 30 then "DR"
  else if |ang + 45| ≤ 30 then "UR"
  else if |ang - 135| ≤ 30 then "DL"
  else if |ang + 135| ≤ 30 then "UL"
  else ""

end Content

namespace P1

/-- The sector table of `dir8` from `src/unnamed/part_001`
(lines 304–313), in source order. -/
def sectors : List (ℚ × String) :=
  [(0, "R"), (45, "DR"), (90, "D"), (135, "DL"), (180, "L"),
    (-135, "UL"), (-90, "U"), (-45, "UR")]

/-- Angular distance with wrap-around at ±180°:
`diff = |ang - c|; diff = Math.min(diff, 360 - diff)`. -/
def angDiff (ang c : ℚ) : ℚ :=
  qmin |ang - c| (360 - |ang - c|)

/-- The selection loop of `dir8`: strict running minimum over the sector
table, first minimum wins.  The initial `bestDiff = Infinity` is
modelled by `1000`: `angDiff` never exceeds `180` (`angDiff_le_180`
below), so the first comparison succeeds exactly as with `Infinity`. -/
def nearestSector (ang : ℚ) : String :=
  (sectors.foldl
    (fun best s =>
      if angDiff ang s.1 < best.1 then (angDiff ang s.1, s.2) else best)
    (1000, "R")).2

/-- `dir8` from `src/unnamed/part_001` (lines 298–326): jitter precheck,
then the nearest of the eight sector centres by angular distance. -/
def dir8 (dx dy jitter : ℚ) (ang : ℚ) : String :=
  if |dx| < jitter ∧ |dy| < jitter then "" else nearestSector ang

end P1

/-- The point-accumulation state of a gesture session shared by the
`content.js` and `part_001` content scripts: the throttled sample list,
the collected direction tokens, `state._lastTokenIndex`, and the
"moved" flag. -/
structure GState where
  points : List Pt
  tokens : List String
  lastTokenIndex : ℕ
  moved : Bool
  deriving DecidableEq

/-- `startGesture`'s session initialisation: one stored sample, no
tokens, not yet moved.  (`state._lastTokenIndex` is not assigned by
`startGesture`; it is only ever read once `tokens` is non-empty, which
in turn sets it first, so initialising it to `0` is equivalent.) -/
def initState (p0 : Pt) : GState :=
  ⟨[p0], [], 0, false⟩

/-- The sample-throttling step of `updateGesture` (identical in
`content.js` and `part_001`): append the new sample only when its
distance from the last stored sample is at least `sampleMinPx`. -/
def pushPoints (sampleMinPx : ℚ) (s : GState) (p : Pt) : List Pt :=
  let last := s.points.getLast?.getD ⟨0, 0⟩
  if distGe last p sampleMinPx then s.points ++ [p] else s.points

/-- `anchorIndex`: `state.tokens.length === 0 ? 0 : state._lastTokenIndex`. -/
def anchorIndexOf (s : GState) : ℕ :=
  if s.tokens = [] then 0 else s.lastTokenIndex

/-- `state.points[anchorIndex] || state.points[0]`: index into the
(post-throttle) sample list, falling back to the first sample when the
index is out of bounds. -/
def anchorOf (points : List Pt) (s : GState) : Pt :=
  points.getD (anchorIndexOf s) (points.headD ⟨0, 0⟩)

namespace Content

/-- One `mousemove` step of `updateGesture` from `src/scripts/content.js`
(lines 392–433), for the session state it mutates (trail rendering and
event bookkeeping are outside the engine).  The direction classifier is
a parameter `f` (taking `dx`, `dy`, `jitterPx`), instantiated with
`dir8` at a matching angle oracle; the token logic does not depend on
which classifier is used.  Note the anchor index advances only inside
`if (d)` — i.e. only when classification returned a non-empty token. -/
def updateGesture (f : ℚ → ℚ → ℚ → String) (prefs : Prefs) (s : GState)
    (p : Pt) : GState :=
  let points := pushPoints prefs.sampleMinPx s p
  let first := points.headD ⟨0, 0⟩
  let moved := s.moved || decide (distGe first p prefs.movedPx)
  let anchor := anchorOf points s
  if distGe anchor p prefs.minSegmentPx then
    let d := f (p.x - anchor.x) (p.y - anchor.y) prefs.jitterPx
    if d ≠ "" then
      let lastToken := s.tokens.getLast?.getD ""
      let tokens := if d ≠ lastToken then s.tokens ++ [d] else s.tokens
      ⟨points, tokens, points.length - 1, moved⟩
    else
      ⟨points, s.tokens, s.lastTokenIndex, moved⟩
  else
    ⟨points, s.tokens, s.lastTokenIndex, moved⟩

/-- A full gesture: `startGesture` at `p0` followed by `updateGesture`
for each subsequent sample. -/
def runGesture (f : ℚ → ℚ → ℚ → String) (prefs : Prefs) (p0 : Pt)
    (moves : List Pt) : GState :=
  moves.foldl (updateGesture f prefs) (initState p0)

end Content

namespace P1

/-- One `mousemove` step of `updateGesture` from `src/unnamed/part_001`
(lines 408–456).  Identical to the `content.js` step except for the
anchor update: `_lastTokenIndex` is set in both branches of
`if (d && d !== lastToken) ... else ...`, i.e. whenever the distance
threshold was met, whether or not a token was appended. -/
def updateGesture (f : ℚ → ℚ → ℚ → String) (prefs : Content.Prefs)
    (s : GState) (p : Pt) : GState :=
  let points := pushPoints prefs.sampleMinPx s p
  let first := points.headD ⟨0, 0⟩
  let moved := s.moved || decide (distGe first p prefs.movedPx)
  let anchor := anchorOf points s
  if distGe anchor p prefs.minSegmentPx then
    let d := f (p.x - anchor.x) (p.y - anchor.y) prefs.jitterPx
    let lastToken := s.tokens.getLast?.getD ""
    if d ≠ "" ∧ d ≠ lastToken then
      ⟨points, s.tokens ++ [d], points.length - 1, moved⟩
    else
      ⟨points, s.tokens, points.length - 1, moved⟩
  else
    ⟨points, s.tokens, s.lastTokenIndex, moved⟩

/-- A full gesture under the `part_001` accumulator. -/
def runGesture (f : ℚ → ℚ → ℚ → String) (prefs : Content.Prefs) (p0 : Pt)
    (moves : List Pt) : GState :=
  moves.foldl (updateGesture f prefs) (initState p0)

end P1

/-- `dist` as the batch `detectPattern` uses it: `Math.hypot` is the
real square root of the squared distance. -/
noncomputable def distR (a b : Pt) : ℝ :=
  Real.sqrt ((dist2 a b : ℚ) : ℝ)

/-- The 4-direction classifier of the batch `detectPattern`
(`detectDir` in `src/unnamed/part_002` lines 236–241, the local `dir`
closure in `src/unnamed/part_003` lines 328–333 — identical code):
below-jitter displacement yields no direction (`none`, the source's
`""`), otherwise the dominant axis wins with ties going horizontal. -/
def detectDir (dx dy jitter : ℚ) : Option Char :=
  if |dx| < jitter ∧ |dy| < jitter then none
  else if |dy| ≤ |dx| then some (if 0 ≤ dx then 'R' else 'L')
  else some (if 0 ≤ dy then 'D' else 'U')

/-- The accumulation loop shared by `detectPattern` in
`src/unnamed/part_002` (lines 243–260) and `src/unnamed/part_003`
(lines 324–346): `acc += dist(last, p)`; when `acc >= minSeg`, classify
the displacement from `last` to `p`, append the token unless it repeats
the pattern's final character, and reset `last`/`acc` — in that branch
always, whether or not a token was appended. -/
noncomputable def detectAux (minSeg jitter : ℚ) :
    List Pt → Pt → ℝ → List Char → List Char
  | [], _, _, out => out
  | p :: rest, last, acc, out =>
      let acc2 := acc + distR last p
      if (minSeg : ℝ) ≤ acc2 then
        let d := detectDir (p.x - last.x) (p.y - last.y) jitter
        let out2 :=
          match d with
          | some c => if out.getLast? ≠ some c then out ++ [c] else out
          | none => out
        detectAux minSeg jitter rest p 0 out2
      else
        detectAux minSeg jitter rest last acc2 out

namespace P3

/-- `detectPattern` from `src/unnamed/part_003` (lines 324–346): fewer
than two samples yield the empty pattern, otherwise run the
accumulation loop from the first sample. -/
noncomputable def detectPattern (pts : List Pt) (minSeg jitter : ℚ) :
    String :=
  match pts with
  | p0 :: p1 :: rest => String.mk (detectAux minSeg jitter (p1 :: rest) p0 0 [])
  | _ => ""

/-- The tracking state `updateGesture` of `part_003` maintains:
every sample is stored (no throttling in this variant) and the pattern
is recomputed over the whole trajectory on every move. -/
structure TrackState where
  points : List Pt
  pattern : String

/-- One `mousemove` step of `updateGesture` from `src/unnamed/part_003`
(lines 453–483), for the trajectory and pattern it maintains:
`gestureState.points.push(p)` then
`gestureState.pattern = detectPattern(gestureState.points, ...)`. -/
noncomputable def updateGesture (minSeg jitter : ℚ) (s : TrackState)
    (p : Pt) : TrackState :=
  let points := s.points ++ [p]
  ⟨points, detectPattern points minSeg jitter⟩

/-- A full gesture under the `part_003` variant: `startGesture` stores
the first sample and clears the pattern, then each move updates. -/
noncomputable def runGesture (minSeg jitter : ℚ) (p0 : Pt)
    (moves : List Pt) : TrackState :=
  moves.foldl (updateGesture minSeg jitter) ⟨[p0], ""⟩

end P3

namespace P2

/-- `detectPattern` from `src/unnamed/part_002` (lines 243–260): the
same accumulation loop, followed by `normalizePattern`. -/
noncomputable def detectPattern (pts : List Pt) (minSeg jitter : ℚ) :
    String :=
  match pts with
  | p0 :: p1 :: rest =>
      normalizePattern (String.mk (detectAux minSeg jitter (p1 :: rest) p0 0 []))
  | _ => normalizePattern ""

end P2

/-- Appending an element different from the last keeps a list free of
adjacent duplicates. -/
theorem chain_ne_append_singleton {α : Type} (l : List α) (d : α)
    (hne : l.getLast? ≠ some d) (hch : List.Chain' (· ≠ ·) l) :
    List.Chain' (· ≠ ·) (l ++ [d]) := by
  rw [List.chain'_append]
  refine ⟨hch, List.chain'_singleton d, ?_⟩
  intro x hx y hy
  have hy' : d = y := by simpa using hy
  subst hy'
  rw [Option.mem_def] at hx
  intro hxy
  rw [hxy] at hx
  exact hne hx

/-- The `content.js` move step preserves the adjacent-distinct token
invariant, for every classifier. -/
theorem content_step_chain (f : ℚ → ℚ → ℚ → String)
    (prefs : Content.Prefs) (s : GState) (p : Pt)
    (h : List.Chain' (· ≠ ·) s.tokens) :
    List.Chain' (· ≠ ·) (Content.updateGesture f prefs s p).tokens := by
  unfold Content.updateGesture
  dsimp only
  split_ifs with h1 h2 h3
  · apply chain_ne_append_singleton _ _ _ h
    intro hlast
    apply h3
    rw [hlast]
    rfl
  · exact h
  · exact h
  · exact h

/-- The `part_001` move step preserves the adjacent-distinct token
invariant, for every classifier. -/
theorem p1_step_chain (f : ℚ → ℚ → ℚ → String)
    (prefs : Content.Prefs) (s : GState) (p : Pt)
    (h : List.Chain' (· ≠ ·) s.tokens) :
    List.Chain' (· ≠ ·) (P1.updateGesture f prefs s p).tokens := by
  unfold P1.updateGesture
  dsimp only
  split_ifs with h1 h2
  · apply chain_ne_append_singleton _ _ _ h
    intro hlast
    apply h2.2
    rw [hlast]
    rfl
  · exact h
  · exact h

/-- The batch accumulation loop preserves the adjacent-distinct
invariant of its output character list. -/
theorem detectAux_chain (minSeg jitter : ℚ) (pts : List Pt) :
    ∀ (last : Pt) (acc : ℝ) (out : List Char), List.Chain' (· ≠ ·) out →
      List.Chain' (· ≠ ·) (detectAux minSeg jitter pts last acc out) := by
  induction pts with
  | nil =>
      intro last acc out h
      simpa [detectAux] using h
  | cons p rest ih =>
      intro last acc out h
      rw [detectAux]
      by_cases hc : (minSeg : ℝ) ≤ acc + distR last p
      · rw [if_pos hc]
        cases hd : detectDir (p.x - last.x) (p.y - last.y) jitter with
        | none => exact ih p 0 out h
        | some c =>
            by_cases hlast : out.getLast? ≠ some c
            · show List.Chain' (· ≠ ·) (detectAux minSeg jitter rest p 0
                (if out.getLast? ≠ some c then out ++ [c] else out))
              rw [if_pos hlast]
              exact ih p 0 _ (chain_ne_append_singleton out c hlast h)
            · show List.Chain' (· ≠ ·) (detectAux minSeg jitter rest p 0
                (if out.getLast? ≠ some c then out ++ [c] else out))
              rw [if_neg hlast]
              exact ih p 0 out h
      · rw [if_neg hc]
        exact ih last (acc + distR last p) out h

/-- C5: every `GesturePattern` produced by the accumulator — at every
intermediate step (the runs below are over arbitrary move prefixes) and
at gesture end — has no two adjacent equal tokens.  This holds for the
`content.js` and `part_001` incremental accumulators under every
classifier, and for the batch `detectPattern` of `part_003`. -/
theorem c5_dedup_invariant :
    ∀ (f : ℚ → ℚ → ℚ → String) (prefs : Content.Prefs) (p0 : Pt)
      (moves : List Pt) (pts : List Pt) (minSeg jitter : ℚ),
      List.Chain' (· ≠ ·) (Content.runGesture f prefs p0 moves).tokens ∧
      List.Chain' (· ≠ ·) (P1.runGesture f prefs p0 moves).tokens ∧
      List.Chain' (· ≠ ·) (P3.detectPattern pts minSeg jitter).data := by
  intro f prefs p0 moves pts minSeg jitter
  refine ⟨?_, ?_, ?_⟩
  · rw [Content.runGesture]
    have hgen : ∀ (l : List Pt) (s : GState), List.Chain' (· ≠ ·) s.tokens →
        List.Chain' (· ≠ ·)
          (l.foldl (Content.updateGesture f prefs) s).tokens := by
      intro l
      induction l with
      | nil => intro s hs; exact hs
      | cons q qs ih =>
          intro s hs
          exact ih _ (content_step_chain f prefs s q hs)
    exact hgen moves (initState p0) List.chain'_nil
  · rw [P1.runGesture]
    have hgen : ∀ (l : List Pt) (s : GState), List.Chain' (· ≠ ·) s.tokens →
        List.Chain' (· ≠ ·)
          (l.foldl (P1.updateGesture f prefs) s).tokens := by
      intro l
      induction l with
      | nil => intro s hs; exact hs
      | cons q qs ih =>
          intro s hs
          exact ih _ (p1_step_chain f prefs s q hs)
    exact hgen moves (initState p0) List.chain'_nil
  · match pts with
    | [] => exact List.chain'_nil
    | [p] => exact List.chain'_nil
    | p0' :: p1' :: rest =>
        show List.Chain' (· ≠ ·)
          (String.mk (detectAux minSeg jitter (p1' :: rest) p0' 0 [])).data
        exact detectAux_chain minSeg jitter (p1' :: rest) p0' 0 []
          List.chain'_nil

/-- C3, amended.  When the segment-distance threshold is met, the two
accumulator variants differ: the `part_001` accumulator advances the
anchor to the current sample in all cases (whether or not a token was
appended, and also when classification returned the empty result),
while the `content.js` accumulator advances the anchor exactly when
classification returned a non-empty token — when the classifier returns
the empty "no direction" result, `content.js` leaves both the anchor
index and the tokens unchanged. -/
theorem c3_amended :
    ∀ (f : ℚ → ℚ → ℚ → String) (prefs : Content.Prefs) (s : GState)
      (p : Pt),
      distGe (anchorOf (pushPoints prefs.sampleMinPx s p) s) p
        prefs.minSegmentPx →
      ((P1.updateGesture f prefs s p).lastTokenIndex
          = (pushPoints prefs.sampleMinPx s p).length - 1) ∧
      (f (p.x - (anchorOf (pushPoints prefs.sampleMinPx s p) s).x)
            (p.y - (anchorOf (pushPoints prefs.sampleMinPx s p) s).y)
            prefs.jitterPx ≠ "" →
        (Content.updateGesture f prefs s p).lastTokenIndex
          = (pushPoints prefs.sampleMinPx s p).length - 1) ∧
      (f (p.x - (anchorOf (pushPoints prefs.sampleMinPx s p) s).x)
            (p.y - (anchorOf (pushPoints prefs.sampleMinPx s p) s).y)
            prefs.jitterPx = "" →
        (Content.updateGesture f prefs s p).lastTokenIndex
            = s.lastTokenIndex ∧
          (Content.updateGesture f prefs s p).tokens = s.tokens) := by
  intro f prefs s p hthr
  refine ⟨?_, ?_, ?_⟩
  · unfold P1.updateGesture
    dsimp only
    rw [if_pos hthr]
    split_ifs <;> rfl
  · intro hd
    unfold Content.updateGesture
    dsimp only
    rw [if_pos hthr, if_pos hd]
  · intro hd
    unfold Content.updateGesture
    dsimp only
    rw [if_pos hthr, if_neg (by rw [hd]; exact fun h => h rfl)]
    exact ⟨rfl, rfl⟩

/-- C3, counterexample.  A two-move gesture under the `content.js`
accumulator with `minSegmentPx = 6`, `jitterPx = 20` (both inside their
clamp ranges): the first move to `(30, 0)` produces token `R` and sets
the anchor index to 1; the second move to `(35, 5)` meets the distance
threshold (`dist² = 50 ≥ 36`) but its displacement `(5, 5)` is below
the jitter bound in both coordinates, so classification returns the
empty result — and the anchor index stays at 1 instead of advancing to
the current sample index 2, contradicting the claim that the anchor
advances in all cases where the threshold was met.  (The classifier is
`dir8` with angle oracle 0: the only classified displacement, `(30, 0)`,
has angle exactly 0°; the second call is decided by the jitter precheck
before the angle is read.) -/
theorem c3_counterexample :
    (Content.runGesture (fun dx dy j => Content.dir8 dx dy j 0)
        ⟨6, 20, 3, 3, 3, 17 / 20⟩ ⟨0, 0⟩
        [⟨30, 0⟩, ⟨35, 5⟩]).lastTokenIndex = 1 ∧
    (Content.runGesture (fun dx dy j => Content.dir8 dx dy j 0)
        ⟨6, 20, 3, 3, 3, 17 / 20⟩ ⟨0, 0⟩
        [⟨30, 0⟩, ⟨35, 5⟩]).points.length = 3 ∧
    distGe ⟨30, 0⟩ ⟨35, 5⟩ 6 ∧ (1 : ℕ) ≠ 3 - 1 := by
  have hstep1 : Content.updateGesture (fun dx dy j => Content.dir8 dx dy j 0)
      ⟨6, 20, 3, 3, 3, 17 / 20⟩ (initState ⟨0, 0⟩) ⟨30, 0⟩
      = ⟨[⟨0, 0⟩, ⟨30, 0⟩], ["R"], 1, true⟩ := by
    unfold Content.updateGesture initState pushPoints anchorOf anchorIndexOf
    norm_num [distGe, dist2, Content.dir8]
    simp
  have hstep2 : Content.updateGesture (fun dx dy j => Content.dir8 dx dy j 0)
      ⟨6, 20, 3, 3, 3, 17 / 20⟩ ⟨[⟨0, 0⟩, ⟨30, 0⟩], ["R"], 1, true⟩ ⟨35, 5⟩
      = ⟨[⟨0, 0⟩, ⟨30, 0⟩, ⟨35, 5⟩], ["R"], 1, true⟩ := by
    unfold Content.updateGesture pushPoints anchorOf anchorIndexOf
    norm_num [distGe, dist2, Content.dir8]
  have hrun : Content.runGesture (fun dx dy j => Content.dir8 dx dy j 0)
      ⟨6, 20, 3, 3, 3, 17 / 20⟩ ⟨0, 0⟩ [⟨30, 0⟩, ⟨35, 5⟩]
      = ⟨[⟨0, 0⟩, ⟨30, 0⟩, ⟨35, 5⟩], ["R"], 1, true⟩ := by
    unfold Content.runGesture
    rw [List.foldl_cons, hstep1, List.foldl_cons, hstep2, List.foldl_nil]
  refine ⟨by rw [hrun], by rw [hrun]; rfl, ?_, by norm_num⟩
  right
  norm_num [dist2]

/-- C3, witness for the amended theorem: a first move to `(30, 0)` from
the start sample `(0, 0)` under the default `content.js` preferences
meets the threshold; `dir8` classifies it as `R` (non-empty), so both
accumulators advance the anchor to the new last sample index 1. -/
theorem c3_amended_witness :
    (P1.updateGesture (fun dx dy j => Content.dir8 dx dy j 0)
        ⟨8, 4, 3, 3, 3, 17 / 20⟩ (initState ⟨0, 0⟩) ⟨30, 0⟩).lastTokenIndex
      = (pushPoints 3 (initState ⟨0, 0⟩) ⟨30, 0⟩).length - 1 ∧
    (Content.updateGesture (fun dx dy j => Content.dir8 dx dy j 0)
        ⟨8, 4, 3, 3, 3, 17 / 20⟩ (initState ⟨0, 0⟩) ⟨30, 0⟩).lastTokenIndex
      = (pushPoints 3 (initState ⟨0, 0⟩) ⟨30, 0⟩).length - 1 := by
  have h := c3_amended (fun dx dy j => Content.dir8 dx dy j 0)
    ⟨8, 4, 3, 3, 3, 17 / 20⟩ (initState ⟨0, 0⟩) ⟨30, 0⟩
    (by
      unfold initState pushPoints anchorOf anchorIndexOf
      norm_num [distGe, dist2])
  refine ⟨h.1, h.2.1 ?_⟩
  unfold initState pushPoints anchorOf anchorIndexOf
  norm_num [distGe, dist2, Content.dir8]
  try decide

/-- The spec's jitter-boundary hypothesis: every pair of samples of the
trajectory is closer than `j` in both coordinates' absolute value. -/
def pairwiseSmall (l : List Pt) (j : ℚ) : Prop :=
  ∀ a ∈ l, ∀ b ∈ l, |a.x - b.x| < j ∧ |a.y - b.y| < j

instance (l : List Pt) (j : ℚ) : Decidable (pairwiseSmall l j) := by
  unfold pairwiseSmall
  infer_instance

/-- The anchor is always one of the stored samples. -/
theorem anchorOf_mem (points : List Pt) (s : GState) (h : points ≠ []) :
    anchorOf points s ∈ points := by
  unfold anchorOf
  by_cases hlt : anchorIndexOf s < points.length
  · rw [List.getD_eq_get points _ hlt]
    exact List.get_mem points (anchorIndexOf s) hlt
  · rw [List.getD_eq_default points _ (le_of_not_lt hlt)]
    match points, h with
    | q :: qs, _ => exact List.mem_cons_self q qs

/-- For a trajectory whose samples are pairwise below the jitter bound,
one `content.js` move step appends no token and keeps the stored-sample
invariants, for every classifier that honours `dir8`'s jitter
precheck. -/
theorem content_step_no_token (f : ℚ → ℚ → ℚ → String)
    (prefs : Content.Prefs) (S : List Pt)
    (hf : ∀ dx dy, |dx| < prefs.jitterPx → |dy| < prefs.jitterPx →
      f dx dy prefs.jitterPx = "")
    (hS : pairwiseSmall S prefs.jitterPx) (s : GState) (p : Pt)
    (hp : p ∈ S) (hpts : ∀ q ∈ s.points, q ∈ S) (hne : s.points ≠ [])
    (htok : s.tokens = []) :
    (Content.updateGesture f prefs s p).tokens = [] ∧
    (∀ q ∈ (Content.updateGesture f prefs s p).points, q ∈ S) ∧
    (Content.updateGesture f prefs s p).points ≠ [] := by
  have hpush_mem : ∀ q ∈ pushPoints prefs.sampleMinPx s p, q ∈ S := by
    intro q hq
    unfold pushPoints at hq
    dsimp only at hq
    split_ifs at hq
    · rcases List.mem_append.mp hq with h | h
      · exact hpts q h
      · have hqp : q = p := by simpa using h
        rw [hqp]
        exact hp
    · exact hpts q hq
  have hpush_ne : pushPoints prefs.sampleMinPx s p ≠ [] := by
    unfold pushPoints
    dsimp only
    split_ifs
    · simp
    · exact hne
  have hanchor : anchorOf (pushPoints prefs.sampleMinPx s p) s ∈ S :=
    hpush_mem _ (anchorOf_mem _ s hpush_ne)
  unfold Content.updateGesture
  dsimp only
  by_cases hthr : distGe (anchorOf (pushPoints prefs.sampleMinPx s p) s) p
      prefs.minSegmentPx
  · rw [if_pos hthr]
    have hd : f (p.x - (anchorOf (pushPoints prefs.sampleMinPx s p) s).x)
        (p.y - (anchorOf (pushPoints prefs.sampleMinPx s p) s).y)
        prefs.jitterPx = "" := by
      apply hf
      · exact (hS p hp _ hanchor).1
      · exact (hS p hp _ hanchor).2
    rw [if_neg (by rw [hd]; exact fun h => h rfl)]
    exact ⟨htok, hpush_mem, hpush_ne⟩
  · rw [if_neg hthr]
    exact ⟨htok, hpush_mem, hpush_ne⟩

/-- For pairwise-small samples, the batch accumulation loop never
appends a character. -/
theorem detectAux_empty (minSeg jitter : ℚ) (S : List Pt)
    (hS : pairwiseSmall S jitter) (pts : List Pt) :
    ∀ (last : Pt) (acc : ℝ), last ∈ S → (∀ q ∈ pts, q ∈ S) →
      detectAux minSeg jitter pts last acc [] = [] := by
  induction pts with
  | nil =>
      intro last acc _ _
      rfl
  | cons p rest ih =>
      intro last acc hlast hmem
      have hp : p ∈ S := hmem p (List.mem_cons_self p rest)
      have hd : detectDir (p.x - last.x) (p.y - last.y) jitter = none := by
        unfold detectDir
        rw [if_pos ⟨(hS p hp last hlast).1, (hS p hp last hlast).2⟩]
      rw [detectAux]
      by_cases hc : (minSeg : ℝ) ≤ acc + distR last p
      · rw [if_pos hc, hd]
        exact ih p 0 hp fun q hq => hmem q (List.mem_cons_of_mem _ hq)
      · rw [if_neg hc]
        exact ih last (acc + distR last p) hlast
          fun q hq => hmem q (List.mem_cons_of_mem _ hq)

/-- C6: a trajectory in which every pair of samples is closer than the
jitter bound in both coordinates produces the empty pattern — in the
`content.js` accumulator (for every classifier honouring `dir8`'s
jitter precheck, which both `dir8` variants do) and in the `part_002`
batch `detectPattern` — even when `jitterPx` exceeds `minSegmentPx` so
that the segment-distance threshold is reached (nothing below bounds
`jitterPx` by `minSegmentPx`; the witness exercises exactly that
case). -/
theorem c6_jitter_boundary :
    ∀ (f : ℚ → ℚ → ℚ → String) (prefs : Content.Prefs) (p0 : Pt)
      (moves : List Pt) (pts : List Pt) (minSeg jitter : ℚ),
      (∀ dx dy, |dx| < prefs.jitterPx → |dy| < prefs.jitterPx →
        f dx dy prefs.jitterPx = "") →
      pairwiseSmall (p0 :: moves) prefs.jitterPx →
      pairwiseSmall pts jitter →
      (Content.runGesture f prefs p0 moves).tokens = [] ∧
      P2.detectPattern pts minSeg jitter = "" := by
  intro f prefs p0 moves pts minSeg jitter hf hpw hpw2
  constructor
  · rw [Content.runGesture]
    have hgen : ∀ (l : List Pt) (s : GState), (∀ q ∈ l, q ∈ p0 :: moves) →
        (∀ q ∈ s.points, q ∈ p0 :: moves) → s.points ≠ [] → s.tokens = [] →
        (l.foldl (Content.updateGesture f prefs) s).tokens = [] := by
      intro l
      induction l with
      | nil =>
          intro s _ _ _ htok
          exact htok
      | cons q qs ih =>
          intro s hl hpts hne htok
          have hq : q ∈ p0 :: moves := hl q (List.mem_cons_self q qs)
          obtain ⟨h1, h2, h3⟩ :=
            content_step_no_token f prefs (p0 :: moves) hf hpw s q hq hpts
              hne htok
          exact ih _ (fun r hr => hl r (List.mem_cons_of_mem _ hr)) h2 h3 h1
    refine hgen moves (initState p0) (fun r hr => List.mem_cons_of_mem _ hr)
      ?_ (by simp [initState]) rfl
    intro q hq
    have : q = p0 := by simpa [initState] using hq
    rw [this]
    exact List.mem_cons_self p0 moves
  · match pts, hpw2 with
    | [], _ => rfl
    | [p], _ => rfl
    | p0' :: p1' :: rest, hpw2 =>
        show P2.normalizePattern
          (String.mk (detectAux minSeg jitter (p1' :: rest) p0' 0 [])) = ""
        rw [detectAux_empty minSeg jitter (p0' :: p1' :: rest) hpw2
          (p1' :: rest) p0' 0 (List.mem_cons_self _ _)
          (fun q hq => List.mem_cons_of_mem _ hq)]
        rfl

/-- C6, witness: the trajectory `(0,0), (5,5), (0,0)` with
`jitterPx = 9 > minSegmentPx = 6` is pairwise below the jitter bound
while reaching the segment-distance threshold (`dist² = 50 ≥ 36`), and
both accumulators produce the empty pattern. -/
theorem c6_jitter_boundary_witness :
    pairwiseSmall [Pt.mk 0 0, Pt.mk 5 5, Pt.mk 0 0] 9 ∧
    distGe ⟨0, 0⟩ ⟨5, 5⟩ 6 ∧
    (Content.runGesture (fun dx dy j => Content.dir8 dx dy j 0)
        ⟨6, 9, 3, 3, 3, 17 / 20⟩ ⟨0, 0⟩ [⟨5, 5⟩, ⟨0, 0⟩]).tokens = [] ∧
    P2.detectPattern [⟨0, 0⟩, ⟨5, 5⟩, ⟨0, 0⟩] 6 9 = "" := by
  have hpw : pairwiseSmall [Pt.mk 0 0, Pt.mk 5 5, Pt.mk 0 0] 9 := by
    intro a ha b hb
    fin_cases ha <;> fin_cases hb <;> constructor <;> norm_num
  have h := c6_jitter_boundary (fun dx dy j => Content.dir8 dx dy j 0)
    ⟨6, 9, 3, 3, 3, 17 / 20⟩ ⟨0, 0⟩ [⟨5, 5⟩, ⟨0, 0⟩]
    [⟨0, 0⟩, ⟨5, 5⟩, ⟨0, 0⟩] 6 9
    (fun dx dy h1 h2 => by
      show Content.dir8 dx dy _ 0 = ""
      unfold Content.dir8
      rw [if_pos ⟨h1, h2⟩])
    hpw hpw
  refine ⟨hpw, ?_, h.1, h.2⟩
  right
  norm_num [dist2]

/-- The `part_003` run stores exactly the start sample followed by every
move, in order. -/
theorem p3_run_points (minSeg jitter : ℚ) :
    ∀ (l : List Pt) (s : P3.TrackState),
      (l.foldl (P3.updateGesture minSeg jitter) s).points = s.points ++ l := by
  intro l
  induction l with
  | nil =>
      intro s
      simp
  | cons p rest ih =>
      intro s
      rw [List.foldl_cons, ih]
      show (s.points ++ [p]) ++ rest = s.points ++ p :: rest
      simp

/-- C4, amended.  The two cited computations are different algorithms
and disagree on some trajectories (see the counterexample); what does
hold is that, within the `part_003` variant, computing the pattern
incrementally — recomputing `detectPattern` on the growing trajectory
at every arriving sample, as its `updateGesture` does — and computing
it once over the complete final trajectory yield the same
`GesturePattern` for every trajectory and configuration, and each
embedded computation is a pure function of the trajectory and
configuration, so resolution is deterministic. -/
theorem c4_amended :
    ∀ (minSeg jitter : ℚ) (p0 : Pt) (moves : List Pt),
      (P3.runGesture minSeg jitter p0 moves).pattern
        = P3.detectPattern (p0 :: moves) minSeg jitter := by
  intro minSeg jitter p0 moves
  rcases List.eq_nil_or_concat moves with rfl | ⟨ms, m, rfl⟩
  · rfl
  · rw [P3.runGesture, List.concat_eq_append, List.foldl_concat]
    show (P3.updateGesture minSeg jitter
      (P3.runGesture minSeg jitter p0 ms) m).pattern = _
    rw [P3.updateGesture]
    dsimp only
    have hpts : (P3.runGesture minSeg jitter p0 ms).points = [p0] ++ ms :=
      p3_run_points minSeg jitter ms ⟨[p0], ""⟩
    rw [hpts]
    rfl

/-- C4, counterexample.  Fixed configuration `minSegmentPx = 6`,
`jitterPx = 0` (both inside their clamp ranges; `content.js` extras
`sampleMinPx = 0`, `movedPx = 1`), trajectory `(0,0), (5,0), (1,0)`.
The `content.js` per-move token accumulation measures the straight-line
distance from its anchor `(0,0)` — at most `5 < 6`, so it never emits a
token and the final pattern is empty.  The batch `detectPattern` of
`part_003` sums the per-sample distances from its anchor
(`5 + 1 = 6 ≥ 6`), fires at the third sample, classifies the net
displacement `(1,0)` as `R`, and returns pattern `"R"`.  The two
results differ, refuting the claimed equality.  (The classifier
argument of the `content.js` run is never invoked: the threshold is
never met.) -/
theorem c4_counterexample :
    String.join (Content.runGesture (fun dx dy j => Content.dir8 dx dy j 0)
        ⟨6, 0, 0, 1, 3, 17 / 20⟩ ⟨0, 0⟩ [⟨5, 0⟩, ⟨1, 0⟩]).tokens = "" ∧
    P3.detectPattern [⟨0, 0⟩, ⟨5, 0⟩, ⟨1, 0⟩] 6 0 = "R" ∧
    ("" : String) ≠ "R" := by
  refine ⟨?_, ?_, by decide⟩
  · have hstep1 : Content.updateGesture
        (fun dx dy j => Content.dir8 dx dy j 0) ⟨6, 0, 0, 1, 3, 17 / 20⟩
        (initState ⟨0, 0⟩) ⟨5, 0⟩
        = ⟨[⟨0, 0⟩, ⟨5, 0⟩], [], 0, true⟩ := by
      unfold Content.updateGesture initState pushPoints anchorOf
        anchorIndexOf
      norm_num [distGe, dist2]
    have hstep2 : Content.updateGesture
        (fun dx dy j => Content.dir8 dx dy j 0) ⟨6, 0, 0, 1, 3, 17 / 20⟩
        ⟨[⟨0, 0⟩, ⟨5, 0⟩], [], 0, true⟩ ⟨1, 0⟩
        = ⟨[⟨0, 0⟩, ⟨5, 0⟩, ⟨1, 0⟩], [], 0, true⟩ := by
      unfold Content.updateGesture pushPoints anchorOf anchorIndexOf
      norm_num [distGe, dist2]
    rw [Content.runGesture, List.foldl_cons, hstep1, List.foldl_cons, hstep2,
      List.foldl_nil]
    rfl
  · have hd1 : distR ⟨0, 0⟩ ⟨5, 0⟩ = 5 := by
      rw [distR]
      rw [show ((dist2 ⟨0, 0⟩ ⟨5, 0⟩ : ℚ) : ℝ) = (5 : ℝ) ^ 2 by
        norm_num [dist2]]
      exact Real.sqrt_sq (by norm_num)
    have hd2 : distR ⟨0, 0⟩ ⟨1, 0⟩ = 1 := by
      rw [distR]
      rw [show ((dist2 ⟨0, 0⟩ ⟨1, 0⟩ : ℚ) : ℝ) = (1 : ℝ) ^ 2 by
        norm_num [dist2]]
      exact Real.sqrt_sq (by norm_num)
    show String.mk (detectAux 6 0 [⟨5, 0⟩, ⟨1, 0⟩] ⟨0, 0⟩ 0 []) = "R"
    rw [detectAux, hd1, if_neg (by norm_num)]
    rw [detectAux, hd2, if_pos (by norm_num)]
    have hdir : detectDir ((⟨1, 0⟩ : Pt).x - (⟨0, 0⟩ : Pt).x)
        ((⟨1, 0⟩ : Pt).y - (⟨0, 0⟩ : Pt).y) 0 = some 'R' := by
      unfold detectDir
      norm_num
    rw [hdir]
    show String.mk (detectAux 6 0 [] ⟨1, 0⟩ 0
      (if ([] : List Char).getLast? ≠ some 'R' then [] ++ ['R'] else [])) = "R"
    rw [if_pos (by simp)]
    rfl

/-- The wrapped angular distance never exceeds 180 (so the modelled
initial `bestDiff = 1000` behaves exactly like `Infinity`: the first
loop iteration always replaces it). -/
theorem angDiff_le_180 (a c : ℚ) : P1.angDiff a c ≤ 180 := by
  unfold P1.angDiff
  rw [qmin_eq]
  rcases le_total |a - c| 180 with h | h
  · exact le_trans (min_le_left _ _) h
  · exact le_trans (min_le_right _ _) (by linarith)

/-- Lower bound for the wrapped angular distance from bounds on the raw
angular difference. -/
theorem le_angDiff (a c x : ℚ) (h1 : x ≤ |a - c|) (h2 : |a - c| ≤ 360 - x) :
    x ≤ P1.angDiff a c := by
  unfold P1.angDiff
  rw [qmin_eq]
  exact le_min h1 (by linarith)

/-- The selection loop leaves its accumulator unchanged when no
remaining sector improves on it. -/
theorem sectorFold_keep (ang : ℚ) (l : List (ℚ × String)) :
    ∀ b : ℚ × String, (∀ s ∈ l, ¬ P1.angDiff ang s.1 < b.1) →
      l.foldl (fun best s => if P1.angDiff ang s.1 < best.1
        then (P1.angDiff ang s.1, s.2) else best) b = b := by
  induction l with
  | nil =>
      intro b _
      rfl
  | cons s rest ih =>
      intro b hb
      rw [List.foldl_cons, if_neg (hb s (List.mem_cons_self s rest))]
      exact ih b fun u hu => hb u (List.mem_cons_of_mem _ hu)

/-- The selection loop returns the token of a sector that strictly
dominates every other sector and the running best. -/
theorem sectorFold_pick (ang : ℚ) (l : List (ℚ × String)) :
    ∀ (b : ℚ × String) (c : ℚ) (t : String), (c, t) ∈ l →
      P1.angDiff ang c < b.1 →
      (∀ s ∈ l, s.1 ≠ c → P1.angDiff ang c < P1.angDiff ang s.1) →
      (∀ s ∈ l, s.1 = c → s.2 = t) →
      (l.foldl (fun best s => if P1.angDiff ang s.1 < best.1
        then (P1.angDiff ang s.1, s.2) else best) b).2 = t := by
  induction l with
  | nil =>
      intro b c t hmem
      cases hmem
  | cons s rest ih =>
      intro b c t hmem hlt hstrict huniq
      rw [List.foldl_cons]
      by_cases hsc : s.1 = c
      · have ht : s.2 = t := huniq s (List.mem_cons_self s rest) hsc
        rw [if_pos (by rw [hsc]; exact hlt)]
        have hkeep : rest.foldl (fun best u => if P1.angDiff ang u.1 < best.1
            then (P1.angDiff ang u.1, u.2) else best)
            (P1.angDiff ang s.1, s.2) = (P1.angDiff ang s.1, s.2) := by
          apply sectorFold_keep
          intro u hu
          by_cases huc : u.1 = c
          · rw [huc, hsc]
            exact lt_irrefl _
          · rw [hsc]
            exact not_lt.mpr
              (le_of_lt (hstrict u (List.mem_cons_of_mem _ hu) huc))
        rw [hkeep]
        exact ht
      · have hmem2 : (c, t) ∈ rest := by
          rcases List.mem_cons.mp hmem with heq | h
          · exact absurd (congrArg Prod.fst heq).symm hsc
          · exact h
        by_cases hcond : P1.angDiff ang s.1 < b.1
        · rw [if_pos hcond]
          exact ih (P1.angDiff ang s.1, s.2) c t hmem2
            (hstrict s (List.mem_cons_self s rest) hsc)
            (fun u hu huc => hstrict u (List.mem_cons_of_mem _ hu) huc)
            (fun u hu huc => huniq u (List.mem_cons_of_mem _ hu) huc)
        · rw [if_neg hcond]
          exact ih b c t hmem2 hlt
            (fun u hu huc => hstrict u (List.mem_cons_of_mem _ hu) huc)
            (fun u hu huc => huniq u (List.mem_cons_of_mem _ hu) huc)

/-- The selection loop picks the sector token whose centre strictly
minimises the angular distance. -/
theorem nearest_eq (ang c : ℚ) (t : String)
    (hmem : (c, t) ∈ P1.sectors)
    (hstrict : ∀ s ∈ P1.sectors, s.1 ≠ c →
      P1.angDiff ang c < P1.angDiff ang s.1)
    (huniq : ∀ s ∈ P1.sectors, s.1 = c → s.2 = t) :
    P1.nearestSector ang = t := by
  rw [P1.nearestSector]
  exact sectorFold_pick ang P1.sectors (1000, "R") c t hmem
    (lt_of_le_of_lt (angDiff_le_180 ang c) (by norm_num)) hstrict huniq

set_option maxHeartbeats 3200000 in
/-- C2, amended.  The nearest-of-eight-sectors rule holds for the
`part_001` classifier: for every displacement not below the jitter
threshold and every angle in `atan2`'s range `[-180, 180]`, whenever the
angle is strictly within 22.5° (in wrapped angular distance) of one of
the eight sector centres, `dir8` returns that sector's token — in
particular every angle strictly within 22.5° of a diagonal centre
yields that diagonal token.  The `content.js` classifier does not
satisfy the nearest-sector rule (see the counterexample): its ±85°
horizontal tolerance band is checked first and swallows the diagonal
sectors. -/
theorem c2_amended :
    ∀ (dx dy jitter ang : ℚ),
      ¬(|dx| < jitter ∧ |dy| < jitter) → -180 ≤ ang → ang ≤ 180 →
      ∀ c t, (c, t) ∈ P1.sectors → P1.angDiff ang c < 45 / 2 →
      P1.dir8 dx dy jitter ang = t := by
  intro dx dy jitter ang hjit hlo hhi c t hmem hdiff
  unfold P1.dir8
  rw [if_neg hjit]
  simp only [P1.sectors, List.mem_cons, List.not_mem_nil, or_false,
    Prod.mk.injEq] at hmem
  rcases hmem with hsec | hsec | hsec | hsec | hsec | hsec | hsec | hsec <;>
    obtain ⟨rfl, rfl⟩ := hsec
  · -- sector centre 0, token R
    have h' := hdiff
    unfold P1.angDiff at h'
    rw [qmin_eq] at h'
    rcases min_lt_iff.mp h' with h1 | h1
    · obtain ⟨hA, hB⟩ := abs_lt.mp h1
      refine nearest_eq ang 0 "R" (by simp [P1.sectors]) ?_ ?_
      · intro s hs hsne
        simp only [P1.sectors, List.mem_cons, List.not_mem_nil, or_false] at hs
        rcases hs with rfl | rfl | rfl | rfl | rfl | rfl | rfl | rfl
        · exact absurd rfl hsne
        · exact lt_of_lt_of_le hdiff (le_angDiff ang 45 (45 / 2)
            (le_abs.mpr (Or.inr (by linarith)))
            (abs_le.mpr ⟨by linarith, by linarith⟩))
        · exact lt_of_lt_of_le hdiff (le_angDiff ang 90 (45 / 2)
            (le_abs.mpr (Or.inr (by linarith)))
            (abs_le.mpr ⟨by linarith, by linarith⟩))
        · exact lt_of_lt_of_le hdiff (le_angDiff ang 135 (45 / 2)
            (le_abs.mpr (Or.inr (by linarith)))
            (abs_le.mpr ⟨by linarith, by linarith⟩))
        · exact lt_of_lt_of_le hdiff (le_angDiff ang 180 (45 / 2)
            (le_abs.mpr (Or.inr (by linarith)))
            (abs_le.mpr ⟨by linarith, by linarith⟩))
        · exact lt_of_lt_of_le hdiff (le_angDiff ang (-135) (45 / 2)
            (le_abs.mpr (Or.inl (by linarith)))
            (abs_le.mpr ⟨by linarith, by linarith⟩))
        · exact lt_of_lt_of_le hdiff (le_angDiff ang (-90) (45 / 2)
            (le_abs.mpr (Or.inl (by linarith)))
            (abs_le.mpr ⟨by linarith, by linarith⟩))
        · exact lt_of_lt_of_le hdiff (le_angDiff ang (-45) (45 / 2)
            (le_abs.mpr (Or.inl (by linarith)))
            (abs_le.mpr ⟨by linarith, by linarith⟩))
      · intro s hs
        simp only [P1.sectors, List.mem_cons, List.not_mem_nil, or_false] at hs
        rcases hs with rfl | rfl | rfl | rfl | rfl | rfl | rfl | rfl
        all_goals intro hh
        all_goals first
          | rfl
          | (exfalso; norm_num at hh)
    · exfalso
      have habs : |ang - 0| ≤ 675 / 2 :=
        abs_le.mpr ⟨by linarith, by linarith⟩
      linarith
  · -- sector centre 45, token DR
    have h' := hdiff
    unfold P1.angDiff at h'
    rw [qmin_eq] at h'
    rcases min_lt_iff.mp h' with h1 | h1
    · obtain ⟨hA, hB⟩ := abs_lt.mp h1
      refine nearest_eq ang 45 "DR" (by simp [P1.sectors]) ?_ ?_
      · intro s hs hsne
        simp only [P1.sectors, List.mem_cons, List.not_mem_nil, or_false] at hs
        rcases hs with rfl | rfl | rfl | rfl | rfl | rfl | rfl | rfl
        · exact lt_of_lt_of_le hdiff (le_angDiff ang 0 (45 / 2)
            (le_abs.mpr (Or.inl (by linarith)))
            (abs_le.mpr ⟨by linarith, by linarith⟩))
        · exact absurd rfl hsne
        · exact lt_of_lt_of_le hdiff (le_angDiff ang 90 (45 / 2)
            (le_abs.mpr (Or.inr (by linarith)))
            (abs_le.mpr ⟨by linarith, by linarith⟩))
        · exact lt_of_lt_of_le hdiff (le_angDiff ang 135 (45 / 2)
            (le_abs.mpr (Or.inr (by linarith)))
            (abs_le.mpr ⟨by linarith, by linarith⟩))
        · exact lt_of_lt_of_le hdiff (le_angDiff ang 180 (45 / 2)
            (le_abs.mpr (Or.inr (by linarith)))
            (abs_le.mpr ⟨by linarith, by linarith⟩))
        · exact lt_of_lt_of_le hdiff (le_angDiff ang (-135) (45 / 2)
            (le_abs.mpr (Or.inl (by linarith)))
            (abs_le.mpr ⟨by linarith, by linarith⟩))
        · exact lt_of_lt_of_le hdiff (le_angDiff ang (-90) (45 / 2)
            (le_abs.mpr (Or.inl (by linarith)))
            (abs_le.mpr ⟨by linarith, by linarith⟩))
        · exact lt_of_lt_of_le hdiff (le_angDiff ang (-45) (45 / 2)
            (le_abs.mpr (Or.inl (by linarith)))
            (abs_le.mpr ⟨by linarith, by linarith⟩))
      · intro s hs
        simp only [P1.sectors, List.mem_cons, List.not_mem_nil, or_false] at hs
        rcases hs with rfl | rfl | rfl | rfl | rfl | rfl | rfl | rfl
        all_goals intro hh
        all_goals first
          | rfl
          | (exfalso; norm_num at hh)
    · exfalso
      have habs : |ang - 45| ≤ 675 / 2 :=
        abs_le.mpr ⟨by linarith, by linarith⟩
      linarith
  · -- sector centre 90, token D
    have h' := hdiff
    unfold P1.angDiff at h'
    rw [qmin_eq] at h'
    rcases min_lt_iff.mp h' with h1 | h1
    · obtain ⟨hA, hB⟩ := abs_lt.mp h1
      refine nearest_eq ang 90 "D" (by simp [P1.sectors]) ?_ ?_
      · intro s hs hsne
        simp only [P1.sectors, List.mem_cons, List.not_mem_nil, or_false] at hs
        rcases hs with rfl | rfl | rfl | rfl | rfl | rfl | rfl | rfl
        · exact lt_of_lt_of_le hdiff (le_angDiff ang 0 (45 / 2)
            (le_abs.mpr (Or.inl (by linarith)))
            (abs_le.mpr ⟨by linarith, by linarith⟩))
        · exact lt_of_lt_of_le hdiff (le_angDiff ang 45 (45 / 2)
            (le_abs.mpr (Or.inl (by linarith)))
            (abs_le.mpr ⟨by linarith, by linarith⟩))
        · exact absurd rfl hsne
        · exact lt_of_lt_of_le hdiff (le_angDiff ang 135 (45 / 2)
            (le_abs.mpr (Or.inr (by linarith)))
            (abs_le.mpr ⟨by linarith, by linarith⟩))
        · exact lt_of_lt_of_le hdiff (le_angDiff ang 180 (45 / 2)
            (le_abs.mpr (Or.inr (by linarith)))
            (abs_le.mpr ⟨by linarith, by linarith⟩))
        · exact lt_of_lt_of_le hdiff (le_angDiff ang (-135) (45 / 2)
            (le_abs.mpr (Or.inl (by linarith)))
            (abs_le.mpr ⟨by linarith, by linarith⟩))
        · exact lt_of_lt_of_le hdiff (le_angDiff ang (-90) (45 / 2)
            (le_abs.mpr (Or.inl (by linarith)))
            (abs_le.mpr ⟨by linarith, by linarith⟩))
        · exact lt_of_lt_of_le hdiff (le_angDiff ang (-45) (45 / 2)
            (le_abs.mpr (Or.inl (by linarith)))
            (abs_le.mpr ⟨by linarith, by linarith⟩))
      · intro s hs
        simp only [P1.sectors, List.mem_cons, List.not_mem_nil, or_false] at hs
        rcases hs with rfl | rfl | rfl | rfl | rfl | rfl | rfl | rfl
        all_goals intro hh
        all_goals first
          | rfl
          | (exfalso; norm_num at hh)
    · exfalso
      have habs : |ang - 90| ≤ 675 / 2 :=
        abs_le.mpr ⟨by linarith, by linarith⟩
      linarith
  · -- sector centre 135, token DL
    have h' := hdiff
    unfold P1.angDiff at h'
    rw [qmin_eq] at h'
    rcases min_lt_iff.mp h' with h1 | h1
    · obtain ⟨hA, hB⟩ := abs_lt.mp h1
      refine nearest_eq ang 135 "DL" (by simp [P1.sectors]) ?_ ?_
      · intro s hs hsne
        simp only [P1.sectors, List.mem_cons, List.not_mem_nil, or_false] at hs
        rcases hs with rfl | rfl | rfl | rfl | rfl | rfl | rfl | rfl
        · exact lt_of_lt_of_le hdiff (le_angDiff ang 0 (45 / 2)
            (le_abs.mpr (Or.inl (by linarith)))
            (abs_le.mpr ⟨by linarith, by linarith⟩))
        · exact lt_of_lt_of_le hdiff (le_angDiff ang 45 (45 / 2)
            (le_abs.mpr (Or.inl (by linarith)))
            (abs_le.mpr ⟨by linarith, by linarith⟩))
        · exact lt_of_lt_of_le hdiff (le_angDiff ang 90 (45 / 2)
            (le_abs.mpr (Or.inl (by linarith)))
            (abs_le.mpr ⟨by linarith, by linarith⟩))
        · exact absurd rfl hsne
        · exact lt_of_lt_of_le hdiff (le_angDiff ang 180 (45 / 2)
            (le_abs.mpr (Or.inr (by linarith)))
            (abs_le.mpr ⟨by linarith, by linarith⟩))
        · exact lt_of_lt_of_le hdiff (le_angDiff ang (-135) (45 / 2)
            (le_abs.mpr (Or.inl (by linarith)))
            (abs_le.mpr ⟨by linarith, by linarith⟩))
        · exact lt_of_lt_of_le hdiff (le_angDiff ang (-90) (45 / 2)
            (le_abs.mpr (Or.inl (by linarith)))
            (abs_le.mpr ⟨by linarith, by linarith⟩))
        · exact lt_of_lt_of_le hdiff (le_angDiff ang (-45) (45 / 2)
            (le_abs.mpr (Or.inl (by linarith)))
            (abs_le.mpr ⟨by linarith, by linarith⟩))
      · intro s hs
        simp only [P1.sectors, List.mem_cons, List.not_mem_nil, or_false] at hs
        rcases hs with rfl | rfl | rfl | rfl | rfl | rfl | rfl | rfl
        all_goals intro hh
        all_goals first
          | rfl
          | (exfalso; norm_num at hh)
    · exfalso
      have habs : |ang - 135| ≤ 675 / 2 :=
        abs_le.mpr ⟨by linarith, by linarith⟩
      linarith
  · -- sector centre 180, token L
    have h' := hdiff
    unfold P1.angDiff at h'
    rw [qmin_eq] at h'
    rcases min_lt_iff.mp h' with h1 | h1
    · obtain ⟨hA, hB⟩ := abs_lt.mp h1
      refine nearest_eq ang 180 "L" (by simp [P1.sectors]) ?_ ?_
      · intro s hs hsne
        simp only [P1.sectors, List.mem_cons, List.not_mem_nil, or_false] at hs
        rcases hs with rfl | rfl | rfl | rfl | rfl | rfl | rfl | rfl
        · exact lt_of_lt_of_le hdiff (le_angDiff ang 0 (45 / 2)
            (le_abs.mpr (Or.inl (by linarith)))
            (abs_le.mpr ⟨by linarith, by linarith⟩))
        · exact lt_of_lt_of_le hdiff (le_angDiff ang 45 (45 / 2)
            (le_abs.mpr (Or.inl (by linarith)))
            (abs_le.mpr ⟨by linarith, by linarith⟩))
        · exact lt_of_lt_of_le hdiff (le_angDiff ang 90 (45 / 2)
            (le_abs.mpr (Or.inl (by linarith)))
            (abs_le.mpr ⟨by linarith, by linarith⟩))
        · exact lt_of_lt_of_le hdiff (le_angDiff ang 135 (45 / 2)
            (le_abs.mpr (Or.inl (by linarith)))
            (abs_le.mpr ⟨by linarith, by linarith⟩))
        · exact absurd rfl hsne
        · exact lt_of_lt_of_le hdiff (le_angDiff ang (-135) (45 / 2)
            (le_abs.mpr (Or.inl (by linarith)))
            (abs_le.mpr ⟨by linarith, by linarith⟩))
        · exact lt_of_lt_of_le hdiff (le_angDiff ang (-90) (45 / 2)
            (le_abs.mpr (Or.inl (by linarith)))
            (abs_le.mpr ⟨by linarith, by linarith⟩))
        · exact lt_of_lt_of_le hdiff (le_angDiff ang (-45) (45 / 2)
            (le_abs.mpr (Or.inl (by linarith)))
            (abs_le.mpr ⟨by linarith, by linarith⟩))
      · intro s hs
        simp only [P1.sectors, List.mem_cons, List.not_mem_nil, or_false] at hs
        rcases hs with rfl | rfl | rfl | rfl | rfl | rfl | rfl | rfl
        all_goals intro hh
        all_goals first
          | rfl
          | (exfalso; norm_num at hh)
    · have hn : ang - 180 ≤ 0 := by linarith
      rw [abs_of_nonpos hn] at h1
      refine nearest_eq ang 180 "L" (by simp [P1.sectors]) ?_ ?_
      · intro s hs hsne
        simp only [P1.sectors, List.mem_cons, List.not_mem_nil, or_false] at hs
        rcases hs with rfl | rfl | rfl | rfl | rfl | rfl | rfl | rfl
        · exact lt_of_lt_of_le hdiff (le_angDiff ang 0 (45 / 2)
            (le_abs.mpr (Or.inr (by linarith)))
            (abs_le.mpr ⟨by linarith, by linarith⟩))
        · exact lt_of_lt_of_le hdiff (le_angDiff ang 45 (45 / 2)
            (le_abs.mpr (Or.inr (by linarith)))
            (abs_le.mpr ⟨by linarith, by linarith⟩))
        · exact lt_of_lt_of_le hdiff (le_angDiff ang 90 (45 / 2)
            (le_abs.mpr (Or.inr (by linarith)))
            (abs_le.mpr ⟨by linarith, by linarith⟩))
        · exact lt_of_lt_of_le hdiff (le_angDiff ang 135 (45 / 2)
            (le_abs.mpr (Or.inr (by linarith)))
            (abs_le.mpr ⟨by linarith, by linarith⟩))
        · exact absurd rfl hsne
        · exact lt_of_lt_of_le hdiff (le_angDiff ang (-135) (45 / 2)
            (le_abs.mpr (Or.inr (by linarith)))
            (abs_le.mpr ⟨by linarith, by linarith⟩))
        · exact lt_of_lt_of_le hdiff (le_angDiff ang (-90) (45 / 2)
            (le_abs.mpr (Or.inr (by linarith)))
            (abs_le.mpr ⟨by linarith, by linarith⟩))
        · exact lt_of_lt_of_le hdiff (le_angDiff ang (-45) (45 / 2)
            (le_abs.mpr (Or.inr (by linarith)))
            (abs_le.mpr ⟨by linarith, by linarith⟩))
      · intro s hs
        simp only [P1.sectors, List.mem_cons, List.not_mem_nil, or_false] at hs
        rcases hs with rfl | rfl | rfl | rfl | rfl | rfl | rfl | rfl
        all_goals intro hh
        all_goals first
          | rfl
          | (exfalso; norm_num at hh)
  · -- sector centre -135, token UL
    have h' := hdiff
    unfold P1.angDiff at h'
    rw [qmin_eq] at h'
    rcases min_lt_iff.mp h' with h1 | h1
    · obtain ⟨hA, hB⟩ := abs_lt.mp h1
      refine nearest_eq ang (-135) "UL" (by simp [P1.sectors]) ?_ ?_
      · intro s hs hsne
        simp only [P1.sectors, List.mem_cons, List.not_mem_nil, or_false] at hs
        rcases hs with rfl | rfl | rfl | rfl | rfl | rfl | rfl | rfl
        · exact lt_of_lt_of_le hdiff (le_angDiff ang 0 (45 / 2)
            (le_abs.mpr (Or.inr (by linarith)))
            (abs_le.mpr ⟨by linarith, by linarith⟩))
        · exact lt_of_lt_of_le hdiff (le_angDiff ang 45 (45 / 2)
            (le_abs.mpr (Or.inr (by linarith)))
            (abs_le.mpr ⟨by linarith, by linarith⟩))
        · exact lt_of_lt_of_le hdiff (le_angDiff ang 90 (45 / 2)
            (le_abs.mpr (Or.inr (by linarith)))
            (abs_le.mpr ⟨by linarith, by linarith⟩))
        · exact lt_of_lt_of_le hdiff (le_angDiff ang 135 (45 / 2)
            (le_abs.mpr (Or.inr (by linarith)))
            (abs_le.mpr ⟨by linarith, by linarith⟩))
        · exact lt_of_lt_of_le hdiff (le_angDiff ang 180 (45 / 2)
            (le_abs.mpr (Or.inr (by linarith)))
            (abs_le.mpr ⟨by linarith, by linarith⟩))
        · exact absurd rfl hsne
        · exact lt_of_lt_of_le hdiff (le_angDiff ang (-90) (45 / 2)
            (le_abs.mpr (Or.inr (by linarith)))
            (abs_le.mpr ⟨by linarith, by linarith⟩))
        · exact lt_of_lt_of_le hdiff (le_angDiff ang (-45) (45 / 2)
            (le_abs.mpr (Or.inr (by linarith)))
            (abs_le.mpr ⟨by linarith, by linarith⟩))
      · intro s hs
        simp only [P1.sectors, List.mem_cons, List.not_mem_nil, or_false] at hs
        rcases hs with rfl | rfl | rfl | rfl | rfl | rfl | rfl | rfl
        all_goals intro hh
        all_goals first
          | rfl
          | (exfalso; norm_num at hh)
    · exfalso
      have habs : |ang - (-135)| ≤ 675 / 2 :=
        abs_le.mpr ⟨by linarith, by linarith⟩
      linarith
  · -- sector centre -90, token U
    have h' := hdiff
    unfold P1.angDiff at h'
    rw [qmin_eq] at h'
    rcases min_lt_iff.mp h' with h1 | h1
    · obtain ⟨hA, hB⟩ := abs_lt.mp h1
      refine nearest_eq ang (-90) "U" (by simp [P1.sectors]) ?_ ?_
      · intro s hs hsne
        simp only [P1.sectors, List.mem_cons, List.not_mem_nil, or_false] at hs
        rcases hs with rfl | rfl | rfl | rfl | rfl | rfl | rfl | rfl
        · exact lt_of_lt_of_le hdiff (le_angDiff ang 0 (45 / 2)
            (le_abs.mpr (Or.inr (by linarith)))
            (abs_le.mpr ⟨by linarith, by linarith⟩))
        · exact lt_of_lt_of_le hdiff (le_angDiff ang 45 (45 / 2)
            (le_abs.mpr (Or.inr (by linarith)))
            (abs_le.mpr ⟨by linarith, by linarith⟩))
        · exact lt_of_lt_of_le hdiff (le_angDiff ang 90 (45 / 2)
            (le_abs.mpr (Or.inr (by linarith)))
            (abs_le.mpr ⟨by linarith, by linarith⟩))
        · exact lt_of_lt_of_le hdiff (le_angDiff ang 135 (45 / 2)
            (le_abs.mpr (Or.inr (by linarith)))
            (abs_le.mpr ⟨by linarith, by linarith⟩))
        · exact lt_of_lt_of_le hdiff (le_angDiff ang 180 (45 / 2)
            (le_abs.mpr (Or.inr (by linarith)))
            (abs_le.mpr ⟨by linarith, by linarith⟩))
        · exact lt_of_lt_of_le hdiff (le_angDiff ang (-135) (45 / 2)
            (le_abs.mpr (Or.inl (by linarith)))
            (abs_le.mpr ⟨by linarith, by linarith⟩))
        · exact absurd rfl hsne
        · exact lt_of_lt_of_le hdiff (le_angDiff ang (-45) (45 / 2)
            (le_abs.mpr (Or.inr (by linarith)))
            (abs_le.mpr ⟨by linarith, by linarith⟩))
      · intro s hs
        simp only [P1.sectors, List.mem_cons, List.not_mem_nil, or_false] at hs
        rcases hs with rfl | rfl | rfl | rfl | rfl | rfl | rfl | rfl
        all_goals intro hh
        all_goals first
          | rfl
          | (exfalso; norm_num at hh)
    · exfalso
      have habs : |ang - (-90)| ≤ 675 / 2 :=
        abs_le.mpr ⟨by linarith, by linarith⟩
      linarith
  · -- sector centre -45, token UR
    have h' := hdiff
    unfold P1.angDiff at h'
    rw [qmin_eq] at h'
    rcases min_lt_iff.mp h' with h1 | h1
    · obtain ⟨hA, hB⟩ := abs_lt.mp h1
      refine nearest_eq ang (-45) "UR" (by simp [P1.sectors]) ?_ ?_
      · intro s hs hsne
        simp only [P1.sectors, List.mem_cons, List.not_mem_nil, or_false] at hs
        rcases hs with rfl | rfl | rfl | rfl | rfl | rfl | rfl | rfl
        · exact lt_of_lt_of_le hdiff (le_angDiff ang 0 (45 / 2)
            (le_abs.mpr (Or.inr (by linarith)))
            (abs_le.mpr ⟨by linarith, by linarith⟩))
        · exact lt_of_lt_of_le hdiff (le_angDiff ang 45 (45 / 2)
            (le_abs.mpr (Or.inr (by linarith)))
            (abs_le.mpr ⟨by linarith, by linarith⟩))
        · exact lt_of_lt_of_le hdiff (le_angDiff ang 90 (45 / 2)
            (le_abs.mpr (Or.inr (by linarith)))
            (abs_le.mpr ⟨by linarith, by linarith⟩))
        · exact lt_of_lt_of_le hdiff (le_angDiff ang 135 (45 / 2)
            (le_abs.mpr (Or.inr (by linarith)))
            (abs_le.mpr ⟨by linarith, by linarith⟩))
        · exact lt_of_lt_of_le hdiff (le_angDiff ang 180 (45 / 2)
            (le_abs.mpr (Or.inr (by linarith)))
            (abs_le.mpr ⟨by linarith, by linarith⟩))
        · exact lt_of_lt_of_le hdiff (le_angDiff ang (-135) (45 / 2)
            (le_abs.mpr (Or.inl (by linarith)))
            (abs_le.mpr ⟨by linarith, by linarith⟩))
        · exact lt_of_lt_of_le hdiff (le_angDiff ang (-90) (45 / 2)
            (le_abs.mpr (Or.inl (by linarith)))
            (abs_le.mpr ⟨by linarith, by linarith⟩))
        · exact absurd rfl hsne
      · intro s hs
        simp only [P1.sectors, List.mem_cons, List.not_mem_nil, or_false] at hs
        rcases hs with rfl | rfl | rfl | rfl | rfl | rfl | rfl | rfl
        all_goals intro hh
        all_goals first
          | rfl
          | (exfalso; norm_num at hh)
    · exfalso
      have habs : |ang - (-45)| ≤ 675 / 2 :=
        abs_le.mpr ⟨by linarith, by linarith⟩
      linarith

/-- C2, counterexample.  The displacement `(10, 10)` (with the default
`jitterPx = 4`, so not below the jitter threshold) has angle exactly
45°, at wrapped angular distance 0 — strictly within 22.5° — from the
diagonal centre 45° whose token is `DR`; nearest-sector classification
therefore requires `DR`, but the `content.js` `dir8` checks its ±85°
horizontal tolerance band first and returns `R`. -/
theorem c2_counterexample :
    Content.dir8 10 10 4 45 = "R" ∧ P1.angDiff 45 45 < 45 / 2 ∧
    ("R" : String) ≠ "DR" := by
  refine ⟨?_, ?_, by decide⟩
  · unfold Content.dir8
    norm_num
  · unfold P1.angDiff
    norm_num [qmin]

/-- C2, witness for the amended theorem: the same displacement
`(10, 10)` at angle 45° under the `part_001` classifier yields `DR`. -/
theorem c2_amended_witness :
    ¬(|(10 : ℚ)| < 4 ∧ |(10 : ℚ)| < 4) ∧ P1.angDiff 45 45 < 45 / 2 ∧
    P1.dir8 10 10 4 45 = "DR" := by
  refine ⟨by norm_num, ?_, ?_⟩
  · unfold P1.angDiff
    norm_num [qmin]
  · exact c2_amended 10 10 4 45 (by norm_num) (by norm_num) (by norm_num)
      45 "DR" (by simp [P1.sectors])
      (by unfold P1.angDiff; norm_num [qmin])
